import Mathlib

/-!
Verification of the JibJab native-compiler backend
(`src/jibjab/jjpy/jj/native_compiler.py`).

The compiler state and its operations are embedded shallowly: the byte
buffers become `List Nat` (each element a byte), Python dicts become
association lists with first-match lookup and in-place replacement on
update, Python `str` values stay `String` and are converted to UTF-8
bytes explicitly where the source calls `.encode('utf-8')`, and Python
ints become `Int`/`Nat` with the masking the source performs spelled as
`% 2 ^ k`.

Numeric instruction and container constants live in
`common/arm64.json`, which is configuration data outside the compiler
module; definitions are parameterised over a `Config` record carrying
those constants, and theorems quantify over the configuration wherever
possible.
-/

namespace JJ

/-- Little-endian 4-byte serialisation of a 32-bit word; mirrors
`struct.pack('<I', inst & 0xFFFFFFFF)`. -/
def pack32 (w : Nat) : List Nat :=
  [w % 2 ^ 32 % 2 ^ 8, w % 2 ^ 32 / 2 ^ 8 % 2 ^ 8,
   w % 2 ^ 32 / 2 ^ 16 % 2 ^ 8, w % 2 ^ 32 / 2 ^ 24 % 2 ^ 8]

/-- Little-endian 8-byte serialisation of a 64-bit word; mirrors
`struct.pack('<Q', x)`. -/
def pack64 (w : Nat) : List Nat :=
  [w % 2 ^ 64 % 2 ^ 8, w % 2 ^ 64 / 2 ^ 8 % 2 ^ 8,
   w % 2 ^ 64 / 2 ^ 16 % 2 ^ 8, w % 2 ^ 64 / 2 ^ 24 % 2 ^ 8,
   w % 2 ^ 64 / 2 ^ 32 % 2 ^ 8, w % 2 ^ 64 / 2 ^ 40 % 2 ^ 8,
   w % 2 ^ 64 / 2 ^ 48 % 2 ^ 8, w % 2 ^ 64 / 2 ^ 56 % 2 ^ 8]

/-- The byte at index `i` of a buffer (0 when out of range). -/
def byteAt (c : List Nat) (i : Nat) : Nat := c.getD i 0

/-- Little-endian read of the 32-bit word stored at byte offset `o`;
mirrors `struct.unpack('<I', code[o:o+4])`. -/
def readWord (c : List Nat) (o : Nat) : Nat :=
  byteAt c o + 2 ^ 8 * byteAt c (o + 1) + 2 ^ 16 * byteAt c (o + 2) +
    2 ^ 24 * byteAt c (o + 3)

/-- In-place overwrite of the 4 bytes at offset `o`; mirrors
`code[o:o+4] = struct.pack('<I', inst)`. -/
def patchWord (o w : Nat) (c : List Nat) : List Nat :=
  c.take o ++ pack32 w ++ c.drop (o + 4)

/-- UTF-8 encoding of one character (standard 1- to 4-byte form). -/
def utf8Char (c : Char) : List Nat :=
  let n := c.toNat
  if n < 0x80 then [n]
  else if n < 0x800 then [0xC0 + n / 0x40, 0x80 + n % 0x40]
  else if n < 0x10000 then
    [0xE0 + n / 0x1000, 0x80 + n / 0x40 % 0x40, 0x80 + n % 0x40]
  else
    [0xF0 + n / 0x40000, 0x80 + n / 0x1000 % 0x40, 0x80 + n / 0x40 % 0x40,
     0x80 + n % 0x40]

/-- UTF-8 bytes of a Python string; mirrors `s.encode('utf-8')`. -/
def enc (s : String) : List Nat :=
  s.data.foldr (fun c acc => utf8Char c ++ acc) []

/-- First-match lookup in a Python-dict association list. -/
def dlookup {α : Type} (k : String) : List (String × α) → Option α
  | [] => none
  | (k', v) :: t => if k = k' then some v else dlookup k t

/-- Python-dict update `d[k] = v`: replace in place when the key exists,
append otherwise. -/
def dinsert {α : Type} (k : String) (v : α) :
    List (String × α) → List (String × α)
  | [] => [(k, v)]
  | (k', v') :: t =>
    if k' = k then (k, v) :: t else (k', v') :: dinsert k v t

/-- Python `k in d`. -/
def dmem {α : Type} (k : String) (d : List (String × α)) : Bool :=
  (dlookup k d).isSome

/-- Membership-preserving add, for the Python sets / constant-valued
dicts (`float_vars.add(name)`, `enum_var_types[name] = "enum"`). -/
def sadd (x : String) (l : List String) : List String :=
  if x ∈ l then l else l ++ [x]

/-- `p` occurs in `l` starting at byte index `i`. -/
def occursAt (p l : List Nat) (i : Nat) : Prop :=
  (l.drop i).take p.length = p

instance occursAtDec (p l : List Nat) (i : Nat) : Decidable (occursAt p l i) := by
  unfold occursAt; infer_instance

/-- Number of (possibly overlapping) occurrences of `p` in `l`. -/
def countOccur (p l : List Nat) : Nat :=
  ((List.range (l.length + 1)).filter fun i => decide (occursAt p l i)).length

/-- Sign extension of a `w`-bit field. -/
def sext (w v : Nat) : Int :=
  if v < 2 ^ (w - 1) then (v : Int) else (v : Int) - 2 ^ w

/-- Modelled from the spec: the numeric instruction encodings and
container-layout constants of `common/arm64.json` (not part of the
compiler module).  §4.1 describes them as fixed pre-computed encodings;
§4.3 as branch condition codes; §4.5/§6 as the container constants.
Theorems quantify over an arbitrary configuration unless a concrete
value is forced. -/
structure Config where
  mov_w0_0 : Nat
  mov_w9_w0 : Nat
  mov_w1_w0 : Nat
  mov_x0_1 : Nat
  cmp_w0_w1 : Nat
  cmp_w9_w0 : Nat
  cmp_w0_0 : Nat
  arith_add : Nat
  arith_sub : Nat
  arith_mul : Nat
  arith_sdiv : Nat
  add_w0_1 : Nat
  str_x0_push : Nat
  ldr_x0_pop : Nat
  movz_x16_4 : Nat
  movk_x16_0x200_lsl16 : Nat
  svc : Nat
  cset_eq : Nat
  cset_ne : Nat
  cset_lt : Nat
  cset_gt : Nat
  adrp : Nat
  add_imm_base : Nat
  cond_eq : Nat
  cond_ne : Nat
  cond_ge : Nat
  cond_le : Nat
  magic : Nat
  cputype : Nat
  cpusubtype : Nat
  filetype : Nat
  flags : Nat
  pageSize : Nat
  textStart : Nat
  lcSegment64 : Nat
  lcLoadDylinker : Nat
  lcBuildVersion : Nat
  lcSymtab : Nat
  lcChainedFixups : Nat
  lcExportsTrie : Nat
  lcMain : Nat
  szSegment : Nat
  szSection : Nat
  szDylinker : Nat
  szBuildVersion : Nat
  szSymtab : Nat
  szChainedFixups : Nat
  szExportTrie : Nat
  szMain : Nat
  vmProtRead : Nat
  vmProtExecute : Nat
  dylinkerPath : String
  minOS : Nat
  sdk : Nat
  sectionTypeCode : Nat
  sectionTypeCstring : Nat
deriving DecidableEq

/-- Modelled from the spec: a concrete configuration instance with the
standard AArch64 / Mach-O values the spec's target ("a RISC load/store
architecture", "a minimal executable container format") prescribes.
Used only to instantiate witnesses and counterexamples; every theorem
that can be stated over an arbitrary `Config` is. -/
def arm64cfg : Config where
  mov_w0_0 := 0x52800000
  mov_w9_w0 := 0x2A0003E9
  mov_w1_w0 := 0x2A0003E1
  mov_x0_1 := 0xD2800020
  cmp_w0_w1 := 0x6B01001F
  cmp_w9_w0 := 0x6B00013F
  cmp_w0_0 := 0x7100001F
  arith_add := 0x0B010000
  arith_sub := 0x4B010000
  arith_mul := 0x1B017C00
  arith_sdiv := 0x1AC10C00
  add_w0_1 := 0x11000400
  str_x0_push := 0xF81F0FE0
  ldr_x0_pop := 0xF84107E0
  movz_x16_4 := 0xD2800090
  movk_x16_0x200_lsl16 := 0xF2A04010
  svc := 0xD4001001
  cset_eq := 0x1A9F17E0
  cset_ne := 0x1A9F07E0
  cset_lt := 0x1A9FA7E0
  cset_gt := 0x1A9FD7E0
  adrp := 0x90000000
  add_imm_base := 0x91000000
  cond_eq := 0
  cond_ne := 1
  cond_ge := 10
  cond_le := 13
  magic := 0xFEEDFACF
  cputype := 0x0100000C
  cpusubtype := 0
  filetype := 2
  flags := 0x00200085
  pageSize := 0x4000
  textStart := 0x100000000
  lcSegment64 := 0x19
  lcLoadDylinker := 0xE
  lcBuildVersion := 0x32
  lcSymtab := 0x2
  lcChainedFixups := 0x80000034
  lcExportsTrie := 0x80000033
  lcMain := 0x80000028
  szSegment := 72
  szSection := 80
  szDylinker := 44
  szBuildVersion := 24
  szSymtab := 24
  szChainedFixups := 16
  szExportTrie := 16
  szMain := 24
  vmProtRead := 1
  vmProtExecute := 4
  dylinkerPath := "/usr/lib/dyld"
  minOS := 0x000E0000
  sdk := 0x000E0000
  sectionTypeCode := 0x80000400
  sectionTypeCstring := 0x2

/-- The `BranchType` enum of the source. -/
inductive BranchType where
  | b | bl | beq | bne | bge | ble | bgt | blt
deriving DecidableEq

/-- One entry of the pending-branch list: code-buffer offset of the
placeholder word, target label, branch kind. -/
structure PendingBranch where
  offset : Nat
  label : String
  ty : BranchType
deriving DecidableEq

/-- Array descriptor: `self.arrays[name] = {offset, count, elem_type}`. -/
structure ArrInfo where
  offset : Nat
  count : Nat
  elem_type : String
deriving DecidableEq

/-- Tuple descriptor: `self.tuples[name] = {offset, types}`. -/
structure TupInfo where
  offset : Nat
  types : List String
deriving DecidableEq

/-- Dictionary entry descriptor:
`{'key': .., 'type': .., 'offset': .., 'sub_array': ..}`. -/
structure DictEntry where
  key : String
  ty : String
  offset : Nat
  sub_array : Option String
deriving DecidableEq

/-- The mutable state of a `NativeCompiler` instance (the fields the
code generator reads or writes).  `functions` keeps only the defined
names, the single fact the generator consults (`name in self.functions`). -/
structure CState where
  code : List Nat := []
  data : List Nat := []
  /-- `self.variables` (Lean reserves the word `variables`). -/
  vars : List (String × Nat) := []
  functions : List String := []
  label_offsets : List (String × Nat) := []
  pending_branches : List PendingBranch := []
  string_offsets : List (String × Nat) := []
  stack_offset : Nat := 0
  current_func : Option String := none
  print_int_offset : Nat := 0
  print_float_offset : Nat := 0
  enums : List (String × List String) := []
  enum_var_types : List String := []
  arrays : List (String × ArrInfo) := []
  tuples : List (String × TupInfo) := []
  dicts : List (String × List DictEntry) := []
  float_vars : List String := []
deriving DecidableEq

/-- `_emit`: append one 32-bit instruction word (little-endian) to the
code buffer. -/
def emit (inst : Nat) (st : CState) : CState :=
  { st with code := st.code ++ pack32 inst }

/-- The instruction words `_emit_mov_imm(reg, value)` emits, in order.
`v = value & 0xFFFFFFFF`; `~v & 0xFFFF` of the source is written
`65535 - v % 65536` (`v ≥ 0`). -/
def movImmWords (reg : Nat) (value : Int) : List Nat :=
  let v : Nat := (value % 2 ^ 32).toNat
  if 0 ≤ value ∧ value < 65536 then
    [0x52800000 ||| (v <<< 5) ||| reg]
  else if -65536 ≤ value ∧ value < 0 then
    [0x12800000 ||| ((65535 - v % 65536) <<< 5) ||| reg]
  else
    [0x52800000 ||| ((v % 65536) <<< 5) ||| reg,
     0x72A00000 ||| ((v / 2 ^ 16 % 65536) <<< 5) ||| reg]

/-- `_emit_mov_imm`: emit the move-immediate sequence. -/
def emitMovImm (reg : Nat) (value : Int) (st : CState) : CState :=
  (movImmWords reg value).foldl (fun s w => emit w s) st

/-- Modelled from the spec ("decoding (simulate execution) the emitted
move sequence"): one step of executing a 32-bit move-wide instruction
on the value `r` held in the destination register.  The three forms are
MOVZ (register := imm16), MOVN (register := NOT imm16, 32-bit), and
MOVK with left shift 16 (bits 16..31 := imm16, low bits kept).  Fields
are read arithmetically: opcode = bits 21..31, imm16 = bits 5..20. -/
def movStep (r w : Nat) : Nat :=
  let op := w / 2 ^ 21
  let imm := w / 2 ^ 5 % 2 ^ 16
  if op = 0x294 then imm
  else if op = 0x094 then 2 ^ 32 - 1 - imm
  else if op = 0x395 then r % 2 ^ 16 + imm * 2 ^ 16
  else r

/-- Execute a sequence of move instructions on an initial register
value. -/
def runMov (r0 : Nat) (ws : List Nat) : Nat := ws.foldl movStep r0

/-- Signed interpretation of a 32-bit register value. -/
def sext32 (n : Nat) : Int := sext 32 n

/-- `_add_string`: return the existing offset when the string was added
before; otherwise append UTF-8 bytes + NUL, pad the data buffer to an
8-byte boundary (`while len(data) % 8 != 0: append(0)`), record and
return the new offset. -/
def addString (s : String) (st : CState) : Nat × CState :=
  match dlookup s st.string_offsets with
  | some off => (off, st)
  | none =>
    let off := st.data.length
    let d1 := st.data ++ enc s ++ [0]
    let d2 := d1 ++ List.replicate ((8 - d1.length % 8) % 8) 0
    (off, { st with data := d2, string_offsets := dinsert s off st.string_offsets })

/-- `_add_double`: pad the data buffer to an 8-byte boundary, append
the 8-byte representation, return the offset.  The double is modelled
by its IEEE-754 bit pattern (the only way the value is consumed is
`struct.pack('<d', value)`). -/
def addDouble (bits : Nat) (st : CState) : Nat × CState :=
  let d0 := st.data ++ List.replicate ((8 - st.data.length % 8) % 8) 0
  (d0.length, { st with data := d0 ++ pack64 bits })

/-- `_add_branch`: record the pending branch at the current offset and
emit the placeholder word `0x14000000`. -/
def addBranch (label : String) (ty : BranchType) (st : CState) : CState :=
  emit 0x14000000
    { st with pending_branches :=
        st.pending_branches ++ [⟨st.code.length, label, ty⟩] }

/-- The patched instruction word `_resolve_branches` computes for a
branch of kind `ty` with masked word-delta `d`.  `BGT`/`BLT` use the
literal condition codes 12/11 of the source; the others take the code
from the configuration's `branchCond` table. -/
def encodeBranch (cfg : Config) (ty : BranchType) (d : Nat) : Nat :=
  match ty with
  | .b => 0x14000000 ||| (d &&& 0x3FFFFFF)
  | .bl => 0x94000000 ||| (d &&& 0x3FFFFFF)
  | .beq => 0x54000000 ||| ((d &&& 0x7FFFF) <<< 5) ||| cfg.cond_eq
  | .bne => 0x54000000 ||| ((d &&& 0x7FFFF) <<< 5) ||| cfg.cond_ne
  | .bge => 0x54000000 ||| ((d &&& 0x7FFFF) <<< 5) ||| cfg.cond_ge
  | .ble => 0x54000000 ||| ((d &&& 0x7FFFF) <<< 5) ||| cfg.cond_le
  | .bgt => 0x54000000 ||| ((d &&& 0x7FFFF) <<< 5) ||| 12
  | .blt => 0x54000000 ||| ((d &&& 0x7FFFF) <<< 5) ||| 11

/-- One iteration of the `_resolve_branches` loop: skip the entry when
its label is absent, otherwise compute
`delta = (target - offset) // 4`, `d = delta & 0xFFFFFFFF`, and
overwrite the 4 bytes at the branch site. -/
def resolveOne (cfg : Config) (labels : List (String × Nat))
    (code : List Nat) (b : PendingBranch) : List Nat :=
  match dlookup b.label labels with
  | none => code
  | some target =>
    let delta : Int := ((target : Int) - (b.offset : Int)).fdiv 4
    let d : Nat := (delta % 2 ^ 32).toNat
    patchWord b.offset (encodeBranch cfg b.ty d) code

/-- `_resolve_branches`: patch every pending branch whose label is
defined. -/
def resolveBranches (cfg : Config) (st : CState) : CState :=
  { st with code :=
      st.pending_branches.foldl (resolveOne cfg st.label_offsets) st.code }

/-- The immediate-field width of each branch kind (26-bit for `B`/`BL`,
19-bit for the conditional forms). -/
def branchImmWidth : BranchType → Nat
  | .b | .bl => 26
  | _ => 19

/-- Modelled from the spec ("decoding the patched site's sign-extended
delta"): extract the branch-kind-specific immediate field of a patched
word and sign-extend it. -/
def decodeBranchDelta (ty : BranchType) (inst : Nat) : Int :=
  match ty with
  | .b | .bl => sext 26 (inst % 2 ^ 26)
  | _ => sext 19 (inst / 2 ^ 5 % 2 ^ 19)

/-- The 9-bit frame-offset field `(-offset - 16) & 0x1FF` shared by the
frame store/load emitters.  The offset is an `Int`: Python computes it
as a plain integer, and array accesses with negative literal indices
produce negative offsets. -/
def off9 (offset : Int) : Nat := ((-offset - 16) % 512).toNat

/-- `_emit_store`: 32-bit store at a frame offset. -/
def emitStore (reg : Nat) (offset : Int) (st : CState) : CState :=
  emit (0xB8000000 ||| (off9 offset <<< 12) ||| (29 <<< 5) ||| reg) st

/-- `_emit_load`: 32-bit load at a frame offset. -/
def emitLoad (reg : Nat) (offset : Int) (st : CState) : CState :=
  emit (0xB8400000 ||| (off9 offset <<< 12) ||| (29 <<< 5) ||| reg) st

/-- `_emit_store_x`: 64-bit store at a frame offset. -/
def emitStoreX (reg : Nat) (offset : Int) (st : CState) : CState :=
  emit (0xF8000000 ||| (off9 offset <<< 12) ||| (29 <<< 5) ||| reg) st

/-- `_emit_load_x`: 64-bit load at a frame offset. -/
def emitLoadX (reg : Nat) (offset : Int) (st : CState) : CState :=
  emit (0xF8400000 ||| (off9 offset <<< 12) ||| (29 <<< 5) ||| reg) st

/-- `_emit_store_d`: 64-bit float store at a frame offset. -/
def emitStoreD (reg : Nat) (offset : Int) (st : CState) : CState :=
  emit (0xFC000000 ||| (off9 offset <<< 12) ||| (29 <<< 5) ||| reg) st

/-- `_emit_load_d`: 64-bit float load at a frame offset. -/
def emitLoadD (reg : Nat) (offset : Int) (st : CState) : CState :=
  emit (0xFC400000 ||| (off9 offset <<< 12) ||| (29 <<< 5) ||| reg) st

/-- `_emit_adrp_add`: placeholder page-address pair for a data
reference. -/
def emitAdrpAdd (cfg : Config) (reg data_offset : Nat) (st : CState) : CState :=
  let st := emit (cfg.adrp ||| reg) st
  emit (cfg.add_imm_base ||| (reg <<< 5) ||| reg |||
    ((data_offset &&& 0xFFF) <<< 10)) st

/-- `_emit_write_syscall`: write `length` bytes at `data_offset` of the
data section to stdout. -/
def emitWriteSyscall (cfg : Config) (data_offset length : Nat) (st : CState) :
    CState :=
  let st := emit cfg.mov_x0_1 st
  let st := emitAdrpAdd cfg 1 data_offset st
  let st := emitMovImm 2 (length : Int) st
  let st := emit cfg.movz_x16_4 st
  let st := emit cfg.movk_x16_0x200_lsl16 st
  emit cfg.svc st

/-- The back-branch of the NUL scan loops: emit the `b.ne` placeholder
at the current offset and immediately patch its 19-bit delta back to
`scan_loop` (`delta = (scan_loop - branch_off) // 4`). -/
def emitScanBackBranch (scan_loop : Nat) (st : CState) : CState :=
  let branch_off := st.code.length
  let st := emit 0x54000001 st
  let delta : Int := ((scan_loop : Int) - (branch_off : Int)).fdiv 4
  let d : Nat := (delta % 2 ^ 32).toNat
  { st with code :=
      patchWord branch_off (0x54000001 ||| ((d &&& 0x7FFFF) <<< 5)) st.code }

/-- `_emit_print_cstring`: print the NUL-terminated string whose
pointer is in x0, followed by a newline. -/
def emitPrintCstring (cfg : Config) (st : CState) : CState :=
  let st := emit 0xAA0003E1 st
  let st := emit 0xAA0003E2 st
  let scan_loop := st.code.length
  let st := emit 0x39400048 st
  let st := emit 0x91000442 st
  let st := emit 0x7100011F st
  let st := emitScanBackBranch scan_loop st
  let st := emit 0xCB010042 st
  let st := emit 0xD1000442 st
  let st := emit 0xD2800020 st
  let st := emit cfg.movz_x16_4 st
  let st := emit cfg.movk_x16_0x200_lsl16 st
  let st := emit cfg.svc st
  let st := emit 0xD100C3FF st
  let st := emit 0x5280014D st
  let st := emit 0x390003ED st
  let st := emit 0x910003E1 st
  let st := emit 0xD2800020 st
  let st := emit 0xD2800022 st
  let st := emit cfg.movz_x16_4 st
  let st := emit cfg.movk_x16_0x200_lsl16 st
  let st := emit cfg.svc st
  emit 0x9100C3FF st

/-- `_emit_print_cstring_no_newline`. -/
def emitPrintCstringNoNewline (cfg : Config) (st : CState) : CState :=
  let st := emit 0xAA0003E1 st
  let st := emit 0xAA0003E2 st
  let scan_loop := st.code.length
  let st := emit 0x39400048 st
  let st := emit 0x91000442 st
  let st := emit 0x7100011F st
  let st := emitScanBackBranch scan_loop st
  let st := emit 0xCB010042 st
  let st := emit 0xD1000442 st
  let st := emit 0xD2800020 st
  let st := emit cfg.movz_x16_4 st
  let st := emit cfg.movk_x16_0x200_lsl16 st
  emit cfg.svc st

/-- `_emit_print_int_no_newline`: print the integer in w0 without a
trailing newline.  The source emits `0x910083EE` and then rewrites its
own last four bytes with the same word (`self.code[-4:] = ...`); both
steps are kept. -/
def emitPrintIntNoNewline (cfg : Config) (st : CState) : CState :=
  let st := emit 0xA9BF7BFD st
  let st := emit 0x910003FD st
  let st := emit 0xD100C3FF st
  let st := emit 0x7100001F st
  let st := emit 0x540000CA st
  let st := emit 0x4B0003E8 st
  let st := emit 0x528005A9 st
  let st := emit 0x390003E9 st
  let st := emit 0x52800029 st
  let st := emit 0x14000003 st
  let st := emit 0x2A0003E8 st
  let st := emit 0x52800009 st
  let st := emit 0x910083EA st
  let st := emit 0x5280014B st
  let loop_off := st.code.length
  let st := emit 0x1ACB090C st
  let st := emit 0x1B0BA18C st
  let st := emit 0x1100C18C st
  let st := emit 0x381FFD4C st
  let st := emit 0x1ACB0908 st
  let st := emit 0x7100011F st
  let st := emitScanBackBranch loop_off st
  let st := emit 0x7100013F st
  let st := emit 0x54000060 st
  let st := emit 0x394003ED st
  let st := emit 0x381FFD4D st
  let st := emit 0x910083EE st
  let st := { st with code := patchWord (st.code.length - 4) 0x910083EE st.code }
  let st := emit 0xCB0A01C2 st
  let st := emit 0xAA0A03E1 st
  let st := emit 0xD2800020 st
  let st := emit cfg.movz_x16_4 st
  let st := emit cfg.movk_x16_0x200_lsl16 st
  let st := emit cfg.svc st
  let st := emit 0x9100C3FF st
  emit 0xA8C17BFD st

/-- The inline `bl print_int` pattern the print paths emit directly:
`delta = (print_int_offset - len(code)) // 4` encoded into a BL word. -/
def emitCallPrintInt (st : CState) : CState :=
  let delta : Int := ((st.print_int_offset : Int) - (st.code.length : Int)).fdiv 4
  let d : Nat := (delta % 2 ^ 32).toNat
  emit (0x94000000 ||| (d &&& 0x3FFFFFF)) st

/-- The inline `bl print_float` pattern. -/
def emitCallPrintFloat (st : CState) : CState :=
  let delta : Int := ((st.print_float_offset : Int) - (st.code.length : Int)).fdiv 4
  let d : Nat := (delta % 2 ^ 32).toNat
  emit (0x94000000 ||| (d &&& 0x3FFFFFF)) st

/-- The guarded first-binding idiom
`if name not in self.variables: self.variables[name] = self.stack_offset;
self.stack_offset += 8` shared by `_gen_var_decl` and `_gen_loop`. -/
def bindVar (name : String) (st : CState) : CState :=
  if dmem name st.vars then st
  else { st with vars := dinsert name st.stack_offset st.vars,
                 stack_offset := st.stack_offset + 8 }

/-- `self.label_offsets[label] = len(self.code)`. -/
def setLabel (lbl : String) (st : CState) : CState :=
  { st with label_offsets := dinsert lbl st.code.length st.label_offsets }

/-- `self.float_vars.add(name)`. -/
def markFloat (name : String) (st : CState) : CState :=
  { st with float_vars := sadd name st.float_vars }

/-- `self.enum_var_types[name] = "enum"`. -/
def markEnumVar (name : String) (st : CState) : CState :=
  { st with enum_var_types := sadd name st.enum_var_types }

/-- `self.stack_offset += 8` alone (the end-bound slot of `_gen_loop`). -/
def bumpStack (st : CState) : CState :=
  { st with stack_offset := st.stack_offset + 8 }

/-- The true/false printing block the tuple and dictionary print paths
repeat verbatim (compare w0 with 0, branch over synthetic `_tf`/`_td`
labels, print "true"/"false", with or without newline). -/
def emitPrintBool (cfg : Config) (nl : Bool) (st : CState) : CState :=
  let st := emit 0x7100001F st
  let fl := "_tf" ++ toString st.code.length
  let dl := "_td" ++ toString st.code.length
  let st := addBranch fl .beq st
  let pt := addString (if nl then "true\n" else "true") st
  let st := emitWriteSyscall cfg pt.1 (if nl then 5 else 4) pt.2
  let st := addBranch dl .b st
  let st := setLabel fl st
  let pf := addString (if nl then "false\n" else "false") st
  let st := emitWriteSyscall cfg pf.1 (if nl then 6 else 5) pf.2
  setLabel dl st

/-- `_emit_print_full_array_inline`: print an int array as
`[e, e, ...]` without trailing newline.  (The `name` parameter of the
source is unused.) -/
def emitPrintFullArrayInline (cfg : Config) (info : ArrInfo) (st : CState) :
    CState :=
  let pl := addString "[" st
  let st := emitWriteSyscall cfg pl.1 1 pl.2
  let st := (List.range info.count).foldl (fun s i =>
    let s := if i > 0 then
        let pc := addString ", " s
        emitWriteSyscall cfg pc.1 2 pc.2
      else s
    let s := emitLoad 0 ((info.offset : Int) + i * 8) s
    emitPrintIntNoNewline cfg s) st
  let pr := addString "]" st
  emitWriteSyscall cfg pr.1 1 pr.2

/-- `_emit_print_full_array`: print an array with trailing newline,
dispatching on its element type. -/
def emitPrintFullArray (cfg : Config) (name : String) (info : ArrInfo)
    (st : CState) : CState :=
  if info.elem_type = "string" then
    let pl := addString "[" st
    let st := emitWriteSyscall cfg pl.1 1 pl.2
    let st := (List.range info.count).foldl (fun s i =>
      let s := if i > 0 then
          let pc := addString ", " s
          emitWriteSyscall cfg pc.1 2 pc.2
        else s
      let s := emitLoadX 0 ((info.offset : Int) + i * 8) s
      emitPrintCstringNoNewline cfg s) st
    let pr := addString "]\n" st
    emitWriteSyscall cfg pr.1 2 pr.2
  else if info.elem_type = "nested" then
    let pl := addString "[" st
    let st := emitWriteSyscall cfg pl.1 1 pl.2
    let st := (List.range info.count).foldl (fun s i =>
      let s := if i > 0 then
          let pc := addString ", " s
          emitWriteSyscall cfg pc.1 2 pc.2
        else s
      let sub_name := name ++ "_" ++ toString i
      match dlookup sub_name s.arrays with
      | some sub_info => emitPrintFullArrayInline cfg sub_info s
      | none => s) st
    let pr := addString "]\n" st
    emitWriteSyscall cfg pr.1 2 pr.2
  else
    let pl := addString "[" st
    let st := emitWriteSyscall cfg pl.1 1 pl.2
    let st := (List.range info.count).foldl (fun s i =>
      let s := if i > 0 then
          let pc := addString ", " s
          emitWriteSyscall cfg pc.1 2 pc.2
        else s
      let s := emitLoad 0 ((info.offset : Int) + i * 8) s
      emitPrintIntNoNewline cfg s) st
    let pr := addString "]\n" st
    emitWriteSyscall cfg pr.1 2 pr.2

/-- The tuple printing block of `_gen_print` (`(e0, e1, ...)` with
newline): one element per recorded type tag. -/
def printTupleBlock (cfg : Config) (tup : TupInfo) (st : CState) : CState :=
  let pl := addString "(" st
  let st := emitWriteSyscall cfg pl.1 1 pl.2
  let st := tup.types.enum.foldl (fun s (it : Nat × String) =>
    let i := it.1
    let t := it.2
    let s := if i > 0 then
        let pc := addString ", " s
        emitWriteSyscall cfg pc.1 2 pc.2
      else s
    if t = "string" then
      let s := emitLoadX 0 ((tup.offset : Int) + i * 8) s
      emitPrintCstringNoNewline cfg s
    else if t = "bool" then
      let s := emitLoad 0 ((tup.offset : Int) + i * 8) s
      emitPrintBool cfg false s
    else
      let s := emitLoad 0 ((tup.offset : Int) + i * 8) s
      emitPrintIntNoNewline cfg s) st
  let pr := addString ")\n" st
  emitWriteSyscall cfg pr.1 2 pr.2

/-- The integer/sub-array fallback of one dictionary entry print
(`else` arm of `_gen_print`'s dict loop). -/
def printDictValueInt (cfg : Config) (e' : DictEntry) (s : CState) : CState :=
  match e'.sub_array with
  | some sub =>
    (match dlookup sub s.arrays with
     | some sub_info => emitPrintFullArrayInline cfg sub_info s
     | none => emitPrintIntNoNewline cfg (emitLoad 0 ((e'.offset : Nat) : Int) s))
  | none => emitPrintIntNoNewline cfg (emitLoad 0 ((e'.offset : Nat) : Int) s)

/-- One entry of the dictionary printing block of `_gen_print`. -/
def printDictEntryStep (cfg : Config) (s : CState) (ie : Nat × DictEntry) :
    CState :=
  let i := ie.1
  let e' := ie.2
  let s := if i > 0 then
      let pc := addString ", " s
      emitWriteSyscall cfg pc.1 2 pc.2
    else s
  let pk := addString ("\"" ++ e'.key ++ "\": ") s
  let s := emitWriteSyscall cfg pk.1 (e'.key.length + 4) pk.2
  if e'.ty = "string" then
    emitPrintCstringNoNewline cfg (emitLoadX 0 ((e'.offset : Nat) : Int) s)
  else if e'.ty = "bool" then
    emitPrintBool cfg false (emitLoad 0 ((e'.offset : Nat) : Int) s)
  else printDictValueInt cfg e' s

/-- The dictionary printing block of `_gen_print`
(`{"k": v, ...}` with newline). -/
def printDictBlock (cfg : Config) (entries : List DictEntry) (st : CState) :
    CState :=
  if entries = [] then
    let p0 := addString "{}\n" st
    emitWriteSyscall cfg p0.1 3 p0.2
  else
    let pl := addString "\x7b" st
    let st := emitWriteSyscall cfg pl.1 1 pl.2
    let st := entries.enum.foldl (printDictEntryStep cfg) st
    let pr := addString "\x7d\n" st
    emitWriteSyscall cfg pr.1 2 pr.2

/-- Literal values carried by `Literal` nodes.  Floats are modelled by
their IEEE-754 bit pattern (they are consumed only through
`struct.pack('<d', ...)`). -/
inductive LitVal where
  | int (n : Int)
  | bool (b : Bool)
  | str (s : String)
  | float (bits : Nat)
deriving DecidableEq

/-- The AST node shapes of `jj/ast.py`.  `IfStmt.else_body` is
`Optional[List[...]]` in the source but only ever tested for truthiness
(`if node.else_body:`), under which `None` and `[]` coincide, so it is
a plain list here.  The loop's unused `collection`/`condition` fields
are kept for shape fidelity. -/
inductive Node where
  | program (stmts : List Node)
  | printStmt (expr : Node)
  | inputExpr (prompt : Node)
  | varDecl (name : String) (value : Node)
  | varRef (name : String)
  | lit (value : LitVal)
  | binaryOp (left : Node) (op : String) (right : Node)
  | unaryOp (op : String) (operand : Node)
  | loopStmt (var : String) (start stop collection condition : Option Node)
      (body : List Node)
  | ifStmt (condition : Node) (then_body : List Node) (else_body : List Node)
  | funcDef (name : String) (params : List String) (body : List Node)
  | funcCall (name : String) (args : List Node)
  | returnStmt (value : Node)
  | enumDef (name : String) (cases : List String)
  | arrayLit (elements : List Node)
  | dictLit (pairs : List (Node × Node))
  | tupleLit (elements : List Node)
  | indexAccess (arr : Node) (index : Node)

/-- Python `isinstance(v, int)` view of a literal value: booleans are
`int` instances (`True == 1`, `False == 0`), floats and strings are
not. -/
def pyIntOfLit : LitVal → Option Int
  | .int n => some n
  | .bool b => some (if b then 1 else 0)
  | _ => none

/-- The integer value of a `Literal` node whose value passes
`isinstance(value, int)`. -/
def pyIntLit : Node → Option Int
  | .lit v => pyIntOfLit v
  | _ => none

/-- The string value of a `Literal` node with a `str` value. -/
def pyStrLit : Node → Option String
  | .lit (.str s) => some s
  | _ => none

/-- Python list indexing `l[i]` (negative indices count from the end;
out-of-range raises IndexError, modelled as `none` — no theorem
exercises that corner). -/
def pyListGet {α : Type} (l : List α) (i : Int) : Option α :=
  if 0 ≤ i then l.get? i.toNat
  else if (-i).toNat ≤ l.length then l.get? (l.length - (-i).toNat)
  else none

/-- `_is_float_expr`. -/
def isFloatExpr (st : CState) : Node → Bool
  | .lit (.float _) => true
  | .lit _ => false
  | .varRef nm => st.float_vars.contains nm
  | .binaryOp l _ r => isFloatExpr st l || isFloatExpr st r
  | .unaryOp _ operand => isFloatExpr st operand
  | _ => false

/-- `_is_enum_expr`. -/
def isEnumExpr (st : CState) : Node → Bool
  | .varRef nm => st.enum_var_types.contains nm || dmem nm st.enums
  | .indexAccess (.varRef a) _ => dmem a st.enums
  | _ => false

set_option maxHeartbeats 1000000

/-- The shared comparison-operator to inverted-branch map of
`_gen_if` (used identically by its float and integer arms). -/
def condBranch (op : String) (lbl : String) (st : CState) : CState :=
  if op = "==" then addBranch lbl .bne st
  else if op = "!=" then addBranch lbl .beq st
  else if op = "<" then addBranch lbl .bge st
  else if op = ">" then addBranch lbl .ble st
  else if op = "<=" then addBranch lbl .bgt st
  else if op = ">=" then addBranch lbl .blt st
  else st

/-- The element-type tag of `_gen_array_decl` (decided by the first
element's shape: string literal, nested array literal, or int). -/
def arrayElemType : List Node → String
  | (.lit (.str _)) :: _ => "string"
  | (.arrayLit _) :: _ => "nested"
  | _ => "int"

/-- The `enum_var_types` tagging prologue of `_gen_var_decl`
(`if isinstance(node.value, IndexAccess) and ... in self.enums`). -/
def enumVarTag (name : String) (value : Node) (st : CState) : CState :=
  match value with
  | .indexAccess (.varRef aname) _ =>
    if dmem aname st.enums then markEnumVar name st else st
  | _ => st

mutual

/-- `_gen_expr`: leave the expression's value in w0/x0.  Guard order
follows the source's `if`/`elif` chain; unsupported shapes emit
nothing.  Python's `isinstance(value, int)` also accepts booleans, so
boolean literals flow through the integer branch (with the same words
the dead explicit bool branch would emit). -/
def genExpr (cfg : Config) (n : Node) (st : CState) : CState :=
  match n with
  | .lit v =>
    (match v with
     | .int m => emitMovImm 0 m st
     | .bool b => emitMovImm 0 (if b then 1 else 0) st
     | _ => emit cfg.mov_w0_0 st)
  | .varRef name =>
    if dmem name st.vars then
      if st.enum_var_types.contains name then
        emitLoadX 0 (((dlookup name st.vars).getD 0 : Nat) : Int) st
      else
        emitLoad 0 (((dlookup name st.vars).getD 0 : Nat) : Int) st
    else
      emit cfg.mov_w0_0 st
  | .binaryOp l op r =>
    let st := genExpr cfg l st
    let st := emit cfg.str_x0_push st
    let st := genExpr cfg r st
    let st := emit cfg.mov_w1_w0 st
    let st := emit cfg.ldr_x0_pop st
    if op = "+" then emit cfg.arith_add st
    else if op = "-" then emit cfg.arith_sub st
    else if op = "*" then emit cfg.arith_mul st
    else if op = "/" then emit cfg.arith_sdiv st
    else if op = "%" then emit 0x1B018040 (emit 0x1AC10C02 st)
    else if op = "==" then emit cfg.cset_eq (emit cfg.cmp_w0_w1 st)
    else if op = "!=" then emit cfg.cset_ne (emit cfg.cmp_w0_w1 st)
    else if op = "<" then emit cfg.cset_lt (emit cfg.cmp_w0_w1 st)
    else if op = ">" then emit cfg.cset_gt (emit cfg.cmp_w0_w1 st)
    else st
  | .indexAccess arr index =>
    (match arr with
     | .varRef aname =>
       if dmem aname st.enums then
         (match pyStrLit index with
          | some sv =>
            let ps := addString sv st
            emitAdrpAdd cfg 0 ps.1 ps.2
          | none => st)
       else if dmem aname st.arrays then
         let is_str := ((dlookup aname st.arrays).getD ⟨0, 0, "int"⟩).elem_type = "string"
         genArrayIndexLoad cfg aname index is_str st
       else st
     | .indexAccess (.varRef oname) innerIdx =>
       if dmem oname st.arrays ∧
           ((dlookup oname st.arrays).getD ⟨0, 0, "int"⟩).elem_type = "nested" then
         (match pyIntLit innerIdx with
          | some iv =>
            let sub_name := oname ++ "_" ++ toString iv
            if dmem sub_name st.arrays then
              genArrayIndexLoad cfg sub_name index false st
            else st
          | none => st)
       else st
     | _ => st)
  | .funcCall name args =>
    if st.functions.contains name then
      let st := genCallArgs cfg 0 args st
      let st := (List.range (min args.length 8)).foldl
        (fun s i => emit (0x2A0003E0 ||| i ||| ((19 + i) <<< 16)) s) st
      addBranch ("_" ++ name) .bl st
    else st
  | _ => st
termination_by (sizeOf n, 2)

/-- The first argument loop of `_gen_expr`'s call case:
`for i, arg in enumerate(node.args[:8])`, evaluating each argument and
parking it in a callee-saved register. -/
def genCallArgs (cfg : Config) (i : Nat) (args : List Node) (st : CState) :
    CState :=
  match args with
  | [] => st
  | a :: t =>
    if i < 8 then
      let st := genExpr cfg a st
      let st := emit (0x2A0003E0 ||| (19 + i)) st
      genCallArgs cfg (i + 1) t st
    else st
termination_by (sizeOf args, 3)

/-- `_gen_float_expr`: leave a float result in d0. -/
def genFloatExpr (cfg : Config) (n : Node) (st : CState) : CState :=
  match n with
  | .lit v =>
    (match v with
     | .float bits =>
       let pd := addDouble bits st
       let st := emitAdrpAdd cfg 8 pd.1 pd.2
       emit 0xFD400100 st
     | .int m =>
       let st := emitMovImm 0 m st
       emit 0x1E620000 st
     | .bool b =>
       -- isinstance(value, int) is true for booleans
       let st := emitMovImm 0 (if b then 1 else 0) st
       emit 0x1E620000 st
     | _ => st)
  | .varRef name =>
    if st.float_vars.contains name ∧ dmem name st.vars then
      emitLoadD 0 (((dlookup name st.vars).getD 0 : Nat) : Int) st
    else if dmem name st.vars then
      let st := emitLoad 0 (((dlookup name st.vars).getD 0 : Nat) : Int) st
      emit 0x1E620000 st
    else st
  | .binaryOp l op r =>
    let st := genFloatExpr cfg l st
    let st := emit 0xFC1F0FE0 st
    let st := genFloatExpr cfg r st
    let st := emit 0x1E604001 st
    let st := emit 0xFC4107E0 st
    if op = "+" then emit 0x1E612800 st
    else if op = "-" then emit 0x1E613800 st
    else if op = "*" then emit 0x1E610800 st
    else if op = "/" then emit 0x1E611800 st
    else if op = "%" then emit 0x1F418040 (emit 0x1E65C042 (emit 0x1E611802 st))
    else st
  | .unaryOp op operand =>
    let st := genFloatExpr cfg operand st
    if op = "-" ∨ op = "neg" then emit 0x1E614000 st else st
  | _ => st
termination_by (sizeOf n, 2)

/-- `_gen_array_index_load`: load `name[index]`, statically for an
integer-literal index, otherwise through the dynamic address
computation.  Callers guarantee the array descriptor exists. -/
def genArrayIndexLoad (cfg : Config) (name : String) (index : Node)
    (is_string : Bool) (st : CState) : CState :=
  let info := (dlookup name st.arrays).getD ⟨0, 0, "int"⟩
  match pyIntLit index with
  | some iv =>
    if is_string then emitLoadX 0 ((info.offset : Int) + iv * 8) st
    else emitLoad 0 ((info.offset : Int) + iv * 8) st
  | none =>
    let st := genExpr cfg index st
    let base_addr := info.offset + 16
    let st := emitMovImm 1 8 st
    let st := emit 0x1B017C02 st
    let st := emitMovImm 1 (base_addr : Int) st
    let st := emit 0xCB0103A1 st
    let st := emit 0x93407C42 st
    let st := emit 0xCB020021 st
    if is_string then emit 0xF9400020 st else emit 0xB9400020 st
termination_by (sizeOf index, 3)

/-- `_gen_print`.  The source is a flat `if`/`elif` chain over the
shape of `node.expr`; here the chain is grouped by the head constructor
of the expression, preserving the source's relative guard order within
each group (guards of different groups are mutually exclusive, and the
trailing float/integer fallbacks are replicated in every group they can
reach). -/
def genPrint (cfg : Config) (n : Node) (st : CState) : CState :=
  match n with
  | .printStmt e =>
    (match e with
     | .lit lv =>
       (match lv with
        | .str sv =>
          let s := sv ++ "\n"
          let ps := addString s st
          emitWriteSyscall cfg ps.1 (enc s).length ps.2
        | .float _ =>
          let st := genFloatExpr cfg e st
          emitCallPrintFloat st
        | _ =>
          let st := genExpr cfg e st
          emitCallPrintInt st)
     | .varRef name =>
       if st.enum_var_types.contains name then
         let st := emitLoadX 0 (((dlookup name st.vars).getD 0 : Nat) : Int) st
         emitPrintCstring cfg st
       else if dmem name st.enums then
         let cases := (dlookup name st.enums).getD []
         let parts := cases.map fun c => "\"" ++ c ++ "\": " ++ c
         let s := "\x7b" ++ String.intercalate ", " parts ++ "\x7d\n"
         let ps := addString s st
         emitWriteSyscall cfg ps.1 (enc s).length ps.2
       else if dmem name st.tuples then
         printTupleBlock cfg ((dlookup name st.tuples).getD ⟨0, []⟩) st
       else if dmem name st.dicts then
         printDictBlock cfg ((dlookup name st.dicts).getD []) st
       else if dmem name st.arrays then
         emitPrintFullArray cfg name ((dlookup name st.arrays).getD ⟨0, 0, "int"⟩) st
       else if isFloatExpr st e then
         let st := genFloatExpr cfg e st
         emitCallPrintFloat st
       else
         let st := genExpr cfg e st
         emitCallPrintInt st
     | .indexAccess arr idx =>
       (match arr with
        | .varRef aname =>
          if dmem aname st.enums then
            (match pyStrLit idx with
             | some sv =>
               let s := sv ++ "\n"
               let ps := addString s st
               emitWriteSyscall cfg ps.1 (enc s).length ps.2
             | none => st)
          else if dmem aname st.tuples then
            let tup := (dlookup aname st.tuples).getD ⟨0, []⟩
            (match pyIntLit idx with
             | some iv =>
               if iv < (tup.types.length : Int) then
                 match pyListGet tup.types iv with
                 | some t =>
                   -- the element index used for the frame offset is the
                   -- literal value itself (`i * 8`)
                   if t = "string" then
                     let st := emitLoadX 0 ((tup.offset : Int) + iv * 8) st
                     emitPrintCstring cfg st
                   else if t = "bool" then
                     let st := emitLoad 0 ((tup.offset : Int) + iv * 8) st
                     emitPrintBool cfg true st
                   else
                     let st := emitLoad 0 ((tup.offset : Int) + iv * 8) st
                     emitCallPrintInt st
                 | none => st
               else st
             | none => st)
          else if dmem aname st.dicts then
            let entries := (dlookup aname st.dicts).getD []
            (match pyStrLit idx with
             | some key =>
               (match entries.find? (fun e' => e'.key = key) with
                | some entry =>
                  if entry.ty = "string" then
                    let st := emitLoadX 0 ((entry.offset : Nat) : Int) st
                    emitPrintCstring cfg st
                  else if entry.ty = "bool" then
                    let st := emitLoad 0 ((entry.offset : Nat) : Int) st
                    emitPrintBool cfg true st
                  else
                    (match entry.sub_array with
                     | some sub =>
                       (match dlookup sub st.arrays with
                        | some sub_info => emitPrintFullArray cfg sub sub_info st
                        | none =>
                          let st := emitLoad 0 ((entry.offset : Nat) : Int) st
                          emitCallPrintInt st)
                     | none =>
                       let st := emitLoad 0 ((entry.offset : Nat) : Int) st
                       emitCallPrintInt st)
                | none => st)
             | none => st)
          else if dmem aname st.arrays then
            let info := (dlookup aname st.arrays).getD ⟨0, 0, "int"⟩
            if info.elem_type = "string" then
              let st := genArrayIndexLoad cfg aname idx true st
              emitPrintCstring cfg st
            else if info.elem_type = "nested" then
              (match pyIntLit idx with
               | some iv =>
                 let sub_name := aname ++ "_" ++ toString iv
                 (match dlookup sub_name st.arrays with
                  | some sub_info => emitPrintFullArray cfg sub_name sub_info st
                  | none => st)
               | none => st)
            else
              let st := genArrayIndexLoad cfg aname idx false st
              emitCallPrintInt st
          else
            let st := genExpr cfg e st
            emitCallPrintInt st
        | .indexAccess (.varRef oname) innerIdx =>
          if dmem oname st.dicts then
            let entries := (dlookup oname st.dicts).getD []
            (match pyStrLit innerIdx with
             | some key =>
               (match entries.find? (fun e' => e'.key = key) with
                | some entry =>
                  (match entry.sub_array with
                   | some sub =>
                     (match dlookup sub st.arrays with
                      | some sub_info =>
                        let is_str := sub_info.elem_type = "string"
                        let st := genArrayIndexLoad cfg sub idx is_str st
                        if is_str then emitPrintCstring cfg st
                        else emitCallPrintInt st
                      | none => st)
                   | none => st)
                | none => st)
             | none => st)
          else if dmem oname st.arrays ∧
              ((dlookup oname st.arrays).getD ⟨0, 0, "int"⟩).elem_type = "nested" then
            (match pyIntLit innerIdx with
             | some iv =>
               let sub_name := oname ++ "_" ++ toString iv
               if dmem sub_name st.arrays then
                 let st := genArrayIndexLoad cfg sub_name idx false st
                 emitCallPrintInt st
               else st
             | none => st)
          else
            let st := genExpr cfg e st
            emitCallPrintInt st
        | _ =>
          let st := genExpr cfg e st
          emitCallPrintInt st)
     | _ =>
       if isFloatExpr st e then
         let st := genFloatExpr cfg e st
         emitCallPrintFloat st
       else
         let st := genExpr cfg e st
         emitCallPrintInt st)
  | _ => st

/-- `_gen_var_decl`. -/
def genVarDecl (cfg : Config) (n : Node) (st : CState) : CState :=
  match n with
  | .varDecl name value =>
    let st := enumVarTag name value st
    (match value with
     | .arrayLit elems => genArrayDecl cfg name elems st
     | .tupleLit elems => genTupleDecl cfg name elems st
     | .dictLit pairs => genDictDecl cfg name pairs st
     | _ =>
       if isFloatExpr st value then
         let st := genFloatExpr cfg value st
         let st := bindVar name st
         let st := markFloat name st
         emitStoreD 0 (((dlookup name st.vars).getD 0 : Nat) : Int) st
       else
         let st := genExpr cfg value st
         let st := bindVar name st
         emitStoreX 0 (((dlookup name st.vars).getD 0 : Nat) : Int) st)
  | _ => st

/-- `_gen_array_decl`. -/
def genArrayDecl (cfg : Config) (name : String) (elems : List Node)
    (st : CState) : CState :=
  let base_off := st.stack_offset
  let elem_type : String := arrayElemType elems
  if elem_type = "nested" then
    let p := genArrayDeclNested cfg name 0 elems st
    let st := p.1
    let sub_names := p.2
    let outer_base := st.stack_offset
    let st := sub_names.foldl (fun s sub_name =>
      let sub_info := (dlookup sub_name s.arrays).getD ⟨0, 0, "int"⟩
      let s := emitMovImm 0 (sub_info.offset : Int) s
      let s := emitStore 0 (s.stack_offset : Int) s
      { s with stack_offset := s.stack_offset + 8 }) st
    { st with
        arrays := dinsert name ⟨outer_base, sub_names.length, "nested"⟩ st.arrays,
        vars := dinsert name outer_base st.vars }
  else if elem_type = "string" then
    let st := elems.foldl (fun s elem =>
      match elem with
      | .lit (.str sv) =>
        let ps := addString sv s
        let s := emitAdrpAdd cfg 0 ps.1 ps.2
        let s := emitStoreX 0 (s.stack_offset : Int) s
        { s with stack_offset := s.stack_offset + 8 }
      | _ => s) st
    { st with
        arrays := dinsert name ⟨base_off, elems.length, "string"⟩ st.arrays,
        vars := dinsert name base_off st.vars }
  else
    let st := genArrayDeclInts cfg elems st
    { st with
        arrays := dinsert name ⟨base_off, elems.length, "int"⟩ st.arrays,
        vars := dinsert name base_off st.vars }
termination_by (sizeOf elems, 5)

/-- The recursive sub-array loop of `_gen_array_decl`'s nested branch
(`for i, elem in enumerate(elems)`), returning the collected sub-array
names. -/
def genArrayDeclNested (cfg : Config) (name : String) (i : Nat)
    (elems : List Node) (st : CState) : CState × List String :=
  match elems with
  | [] => (st, [])
  | e :: t =>
    match e with
    | .arrayLit elems' =>
      let sub_name := name ++ "_" ++ toString i
      let st := genArrayDecl cfg sub_name elems' st
      let p := genArrayDeclNested cfg name (i + 1) t st
      (p.1, sub_name :: p.2)
    | _ => genArrayDeclNested cfg name (i + 1) t st
termination_by (sizeOf elems, 4)

/-- The element loop of `_gen_array_decl`'s integer branch. -/
def genArrayDeclInts (cfg : Config) (elems : List Node) (st : CState) :
    CState :=
  match elems with
  | [] => st
  | e :: t =>
    let st := genExpr cfg e st
    let st := emitStore 0 (st.stack_offset : Int) st
    let st := { st with stack_offset := st.stack_offset + 8 }
    genArrayDeclInts cfg t st
termination_by (sizeOf elems, 3)

/-- `_gen_tuple_decl`. -/
def genTupleDecl (cfg : Config) (name : String) (elems : List Node)
    (st : CState) : CState :=
  let base_off := st.stack_offset
  let p := genTupleElems cfg elems st
  { p.1 with
      tuples := dinsert name ⟨base_off, p.2⟩ p.1.tuples,
      vars := dinsert name base_off p.1.vars }

/-- The element loop of `_gen_tuple_decl`, returning the recorded type
tags in order.  The source checks `str`, then `bool`, then `int` here
(so booleans are typed 'bool'). -/
def genTupleElems (cfg : Config) (elems : List Node) (st : CState) :
    CState × List String :=
  match elems with
  | [] => (st, [])
  | e :: t =>
    let step : CState × String :=
      match e with
      | .lit (.str sv) =>
        let ps := addString sv st
        let s := emitAdrpAdd cfg 0 ps.1 ps.2
        let s := emitStoreX 0 (s.stack_offset : Int) s
        (s, "string")
      | .lit (.bool b) =>
        let s := emitMovImm 0 (if b then 1 else 0) st
        let s := emitStore 0 (s.stack_offset : Int) s
        (s, "bool")
      | .lit (.int m) =>
        let s := emitMovImm 0 m st
        let s := emitStore 0 (s.stack_offset : Int) s
        (s, "int")
      | .lit _ =>
        let s := emit cfg.mov_w0_0 st
        let s := emitStore 0 (s.stack_offset : Int) s
        (s, "int")
      | _ =>
        let s := genExpr cfg e st
        let s := emitStore 0 (s.stack_offset : Int) s
        (s, "int")
    let st := { step.1 with stack_offset := step.1.stack_offset + 8 }
    let p := genTupleElems cfg t st
    (p.1, step.2 :: p.2)
termination_by (sizeOf elems, 3)

/-- `_gen_dict_decl`. -/
def genDictDecl (cfg : Config) (name : String) (pairs : List (Node × Node))
    (st : CState) : CState :=
  let p := genDictPairs cfg name pairs st
  { p.1 with
      dicts := dinsert name p.2 p.1.dicts,
      vars := dinsert name p.1.stack_offset p.1.vars }

/-- The pair loop of `_gen_dict_decl`, returning the entry descriptors
in order.  Pairs whose key is not a string literal are skipped; values
that are neither array literals nor literals are skipped entirely. -/
def genDictPairs (cfg : Config) (name : String) (pairs : List (Node × Node))
    (st : CState) : CState × List DictEntry :=
  match pairs with
  | [] => (st, [])
  | (k, val) :: t =>
    match pyStrLit k with
    | none => genDictPairs cfg name t st
    | some key =>
      match val with
      | .arrayLit elems =>
        let sub_name := name ++ "_" ++ key
        let st := genArrayDecl cfg sub_name elems st
        let p := genDictPairs cfg name t st
        (p.1, ⟨key, "int", 0, some sub_name⟩ :: p.2)
      | .lit lv =>
        let off := st.stack_offset
        let step : CState × DictEntry :=
          match lv with
          | .str sv =>
            let ps := addString sv st
            let s := emitAdrpAdd cfg 0 ps.1 ps.2
            let s := emitStoreX 0 (off : Int) s
            (s, ⟨key, "string", off, none⟩)
          | .bool b =>
            let s := emitMovImm 0 (if b then 1 else 0) st
            let s := emitStore 0 (off : Int) s
            (s, ⟨key, "bool", off, none⟩)
          | .int m =>
            let s := emitMovImm 0 m st
            let s := emitStore 0 (off : Int) s
            (s, ⟨key, "int", off, none⟩)
          | _ => (st, ⟨key, "int", off, none⟩)
        let st := { step.1 with stack_offset := step.1.stack_offset + 8 }
        let p := genDictPairs cfg name t st
        (p.1, step.2 :: p.2)
      | _ => genDictPairs cfg name t st
termination_by (sizeOf pairs, 5)

/-- `_gen_loop`. -/
def genLoop (cfg : Config) (n : Node) (st : CState) : CState :=
  match n with
  | .loopStmt var start stop _ _ body =>
    (match start, stop with
     | some startNode, some stopNode =>
       let loop_label := "_L" ++ toString st.code.length
       let end_label := "_E" ++ toString st.code.length
       let st := genExpr cfg startNode st
       let st := bindVar var st
       let var_off := (dlookup var st.vars).getD 0
       let st := emitStore 0 (var_off : Int) st
       let st := genExpr cfg stopNode st
       let end_off := st.stack_offset
       let st := bumpStack st
       let st := emitStore 0 (end_off : Int) st
       let st := setLabel loop_label st
       let st := emitLoad 0 (var_off : Int) st
       let st := emitLoad 1 (end_off : Int) st
       let st := emit cfg.cmp_w0_w1 st
       let st := addBranch end_label .bge st
       let st := genStmts cfg body st
       let st := emitLoad 0 (var_off : Int) st
       let st := emit cfg.add_w0_1 st
       let st := emitStore 0 (var_off : Int) st
       let st := addBranch loop_label .b st
       setLabel end_label st
     | _, _ => st)
  | _ => st
termination_by (sizeOf n, 5)

/-- The condition-compilation prologue of `_gen_if` (float comparison,
integer/enum comparison, or truthiness test), ending in the inverted
branch to the else label. -/
def genIfCond (cfg : Config) (condition : Node) (else_label : String)
    (st : CState) : CState :=
  match condition with
  | .binaryOp cl cop cr =>
    if isFloatExpr st cl || isFloatExpr st cr then
      let st := genFloatExpr cfg cl st
      let st := emit 0xFC1F0FE0 st
      let st := genFloatExpr cfg cr st
      let st := emit 0x1E604001 st
      let st := emit 0xFC4107E0 st
      let st := emit 0x1E612010 st
      condBranch cop else_label st
    else
      let is_enum_cmp := isEnumExpr st cl || isEnumExpr st cr
      let st := genExpr cfg cl st
      let st := if is_enum_cmp then emit 0xAA0003E9 st
        else emit cfg.mov_w9_w0 st
      let st := genExpr cfg cr st
      let st := if is_enum_cmp then emit 0xEB00013F st
        else emit cfg.cmp_w9_w0 st
      condBranch cop else_label st
  | _ =>
    let st := genExpr cfg condition st
    let st := emit cfg.cmp_w0_0 st
    addBranch else_label .beq st
termination_by (sizeOf condition, 4)

/-- `_gen_if`. -/
def genIf (cfg : Config) (n : Node) (st : CState) : CState :=
  match n with
  | .ifStmt condition then_body else_body =>
    let else_label := "_else" ++ toString st.code.length
    let end_label := "_end" ++ toString st.code.length
    let st := genIfCond cfg condition else_label st
    let st := genStmts cfg then_body st
    let st := if !else_body.isEmpty then addBranch end_label .b st else st
    let st := setLabel else_label st
    if !else_body.isEmpty then
      let st := genStmts cfg else_body st
      setLabel end_label st
    else st
  | _ => st
termination_by (sizeOf n, 5)

/-- `_gen_stmt`: dispatch on the statement class; any other node kind
falls through and emits nothing.  `f'_{self.current_func}_ret'` renders
`None` as the string "None" when a return appears outside a
function. -/
def genStmt (cfg : Config) (n : Node) (st : CState) : CState :=
  match n with
  | .printStmt e => genPrint cfg (.printStmt e) st
  | .varDecl nm v => genVarDecl cfg (.varDecl nm v) st
  | .loopStmt a s e c w b => genLoop cfg (.loopStmt a s e c w b) st
  | .ifStmt c tb eb => genIf cfg (.ifStmt c tb eb) st
  | .returnStmt v =>
    let st := genExpr cfg v st
    addBranch
      ("_" ++ (match st.current_func with | some f => f | none => "None") ++
        "_ret") .b st
  | .enumDef ename cases =>
    let st := { st with enums := dinsert ename cases st.enums }
    cases.foldl (fun s c => (addString c s).2) st
  | _ => st
termination_by (sizeOf n, 10)

/-- Sequential generation of a statement list. -/
def genStmts (cfg : Config) (l : List Node) (st : CState) : CState :=
  match l with
  | [] => st
  | s :: t => genStmts cfg t (genStmt cfg s st)
termination_by (sizeOf l, 20)

end

/-- The rewritten ADRP word of `_write_macho`'s fixup pass:
`pc & ~0xFFF` is `pc - pc % 4096` for the non-negative `pc`, the
Python shifts `>> 14`/`>> 12` on the possibly negative `page_delta`
are floor shifts (`Int.fdiv`), and the masks `& 0x7FFFF`/`& 0x3` are
`emod` by the corresponding powers of two. -/
def adrpRewrite (code_vm_addr data_vm_addr i inst : Nat) : Nat :=
  let pc := code_vm_addr + i
  let pc_page := pc / 0x1000 * 0x1000
  let target_page := data_vm_addr / 0x1000 * 0x1000
  let page_delta : Int := (target_page : Int) - (pc_page : Int)
  let immhi := (page_delta.fdiv (2 ^ 14) % 2 ^ 19).toNat
  let immlo := (page_delta.fdiv (2 ^ 12) % 4).toNat
  let rd := inst % 32
  0x90000000 ||| (immlo <<< 29) ||| (immhi <<< 5) ||| rd

/-- The rewritten ADD word of the fixup pass: the original 12-bit
immediate (`(add_inst >> 10) & 0xFFF`) plus the data section's
within-page offset, re-inserted into the kept bits. -/
def addRewrite (data_vm_addr add_inst : Nat) : Nat :=
  let data_page_offset := data_vm_addr % 0x1000
  let existing_off := add_inst / 2 ^ 10 % 2 ^ 12
  let new_off := (data_page_offset + existing_off) % 2 ^ 12
  (add_inst &&& 0xFFC003FF) ||| (new_off <<< 10)

/-- One iteration body of the address-materialisation fixup loop of
`_write_macho`: at offset `i`, when the word matches the ADRP mask,
rewrite it, and rewrite the following word as well when (read back
from the already-patched buffer, as the source does) it matches the
ADD mask. -/
def fixStep (code_vm_addr data_vm_addr : Nat) (code : List Nat) (i : Nat) :
    List Nat :=
  let inst := readWord code i
  if inst &&& 0x9F000000 = 0x90000000 then
    let c1 := patchWord i (adrpRewrite code_vm_addr data_vm_addr i inst) code
    let add_inst := readWord c1 (i + 4)
    if add_inst &&& 0xFF800000 = 0x91000000 then
      patchWord (i + 4) (addRewrite data_vm_addr add_inst) c1
    else c1
  else code

/-- The address-materialisation fixup loop of `_write_macho`
(`i = 0; while i < len(self.code) - 8: ...; i += 4`). -/
def fixAdrpAdd (code_vm_addr data_vm_addr : Nat) (code : List Nat) (i : Nat) :
    List Nat :=
  if i + 8 < code.length then
    fixAdrpAdd code_vm_addr data_vm_addr
      (fixStep code_vm_addr data_vm_addr code i) (i + 4)
  else code
termination_by code.length - i
decreasing_by
  simp only [fixStep, patchWord, pack32, List.length_append, List.length_take,
    List.length_drop, List.length_cons, List.length_nil]
  split <;> [skip; omega]
  split <;> simp only [List.length_append, List.length_take,
    List.length_drop, List.length_cons, List.length_nil, pack32] <;> omega

/-- The byte-alignment padding loops
(`while len(buf) % m != 0: buf.append(0)`). -/
def padBytes (l : List Nat) (m : Nat) : List Nat :=
  l ++ List.replicate ((m - l.length % m) % m) 0

/-- `_pad_string`: UTF-8 bytes truncated to `n` and zero-padded to
exactly `n`. -/
def padStr (s : String) (n : Nat) : List Nat :=
  let r := (enc s).take n
  r ++ List.replicate (n - r.length) 0

/-- `_write_macho` up to (and excluding) the actual file write: the
serialised byte image, given the final code and data buffers and the
recorded main-function offset. -/
def writeMacho (cfg : Config) (code0 data0 : List Nat) (main_offset : Nat) :
    List Nat :=
  let code1 := padBytes code0 16
  let data1 := padBytes data0 16
  let segment_cmd_size := cfg.szSegment
  let section_size := cfg.szSection
  let ncmds := 9
  let sizeofcmds := segment_cmd_size + (segment_cmd_size + 2 * section_size) +
    segment_cmd_size + cfg.szDylinker + cfg.szBuildVersion + cfg.szSymtab +
    cfg.szChainedFixups + cfg.szExportTrie + cfg.szMain
  let page_size := cfg.pageSize
  let text_start := cfg.textStart
  let text_file_off := 0
  let code_file_offset := page_size
  let code_vm_addr := text_start + code_file_offset
  let code_size := code1.length
  let data_file_offset := code_file_offset + (code_size + 15) / 16 * 16
  let data_vm_addr := text_start + data_file_offset
  let text_end_offset := data_file_offset + data1.length
  let text_file_size := (text_end_offset + page_size - 1) / page_size * page_size
  let text_vm_size := text_file_size
  let linkedit_file_off := text_file_size
  let linkedit_file_size := page_size
  let linkedit_vm_addr := text_start + linkedit_file_off
  let linkedit_vm_size := page_size
  let code2 := fixAdrpAdd code_vm_addr data_vm_addr code1 0
  let header :=
    pack32 cfg.magic ++ pack32 cfg.cputype ++ pack32 cfg.cpusubtype ++
    pack32 cfg.filetype ++ pack32 ncmds ++ pack32 sizeofcmds ++
    pack32 cfg.flags ++ pack32 0
  let lcPagezero :=
    pack32 cfg.lcSegment64 ++ pack32 segment_cmd_size ++
    padStr "__PAGEZERO" 16 ++ pack64 0 ++ pack64 text_start ++ pack64 0 ++
    pack64 0 ++ pack32 0 ++ pack32 0 ++ pack32 0 ++ pack32 0
  let lcText :=
    pack32 cfg.lcSegment64 ++ pack32 (segment_cmd_size + 2 * section_size) ++
    padStr "__TEXT" 16 ++ pack64 text_start ++ pack64 text_vm_size ++
    pack64 text_file_off ++ pack64 text_file_size ++
    pack32 (cfg.vmProtRead ||| cfg.vmProtExecute) ++
    pack32 (cfg.vmProtRead ||| cfg.vmProtExecute) ++ pack32 2 ++ pack32 0 ++
    padStr "__text" 16 ++ padStr "__TEXT" 16 ++ pack64 code_vm_addr ++
    pack64 code_size ++ pack32 code_file_offset ++ pack32 4 ++ pack32 0 ++
    pack32 0 ++ pack32 cfg.sectionTypeCode ++ pack32 0 ++ pack32 0 ++
    pack32 0 ++
    padStr "__cstring" 16 ++ padStr "__TEXT" 16 ++ pack64 data_vm_addr ++
    pack64 data1.length ++ pack32 data_file_offset ++ pack32 0 ++ pack32 0 ++
    pack32 0 ++ pack32 cfg.sectionTypeCstring ++ pack32 0 ++ pack32 0 ++
    pack32 0
  let lcLinkeditSeg :=
    pack32 cfg.lcSegment64 ++ pack32 segment_cmd_size ++
    padStr "__LINKEDIT" 16 ++ pack64 linkedit_vm_addr ++
    pack64 linkedit_vm_size ++ pack64 linkedit_file_off ++
    pack64 linkedit_file_size ++ pack32 cfg.vmProtRead ++
    pack32 cfg.vmProtRead ++ pack32 0 ++ pack32 0
  let lcDylinkerCmd :=
    pack32 cfg.lcLoadDylinker ++ pack32 cfg.szDylinker ++ pack32 12 ++
    padStr cfg.dylinkerPath 32
  let lcBuildVersionCmd :=
    pack32 cfg.lcBuildVersion ++ pack32 cfg.szBuildVersion ++ pack32 1 ++
    pack32 cfg.minOS ++ pack32 cfg.sdk ++ pack32 0
  let lcSymtabCmd :=
    pack32 cfg.lcSymtab ++ pack32 cfg.szSymtab ++ pack32 0 ++ pack32 0 ++
    pack32 0 ++ pack32 0
  let chained_fixups_offset := linkedit_file_off
  let chained_fixups_size := 48
  let lcChainedFixupsCmd :=
    pack32 cfg.lcChainedFixups ++ pack32 cfg.szChainedFixups ++
    pack32 chained_fixups_offset ++ pack32 chained_fixups_size
  let export_trie_offset := chained_fixups_offset + chained_fixups_size
  let export_trie_size := 8
  let lcExportsTrieCmd :=
    pack32 cfg.lcExportsTrie ++ pack32 cfg.szExportTrie ++
    pack32 export_trie_offset ++ pack32 export_trie_size
  let lcMainCmd :=
    pack32 cfg.lcMain ++ pack32 cfg.szMain ++
    pack64 (code_file_offset + main_offset) ++ pack64 0
  let b0 := header ++ lcPagezero ++ lcText ++ lcLinkeditSeg ++ lcDylinkerCmd ++
    lcBuildVersionCmd ++ lcSymtabCmd ++ lcChainedFixupsCmd ++
    lcExportsTrieCmd ++ lcMainCmd
  let b1 := b0 ++ List.replicate (code_file_offset - b0.length) 0
  let b2 := b1 ++ code2
  let b3 := b2 ++ List.replicate (data_file_offset - b2.length) 0
  let b4 := b3 ++ data1
  let b5 := b4 ++ List.replicate (text_file_size - b4.length) 0
  let b6 := b5 ++ pack32 0 ++ pack32 28 ++ pack32 44 ++ pack32 44 ++
    pack32 0 ++ pack32 1 ++ pack32 0 ++ pack32 3 ++ pack32 0 ++ pack32 0 ++
    pack32 0
  let b7 := b6 ++ List.replicate (text_file_size + 48 - b6.length) 0
  let b8 := b7 ++ [0x00, 0x00]
  let b9 := b8 ++ List.replicate (text_file_size + 48 + 8 - b8.length) 0
  b9 ++ List.replicate (text_file_size + linkedit_file_size - b9.length) 0

/-- A 16-byte code buffer whose final 8 bytes are an ADRP/ADD pair
(two NOP words `0xD503201F`, then ADRP x8 `0x90000008`, then
ADD x8, x8, #imm `0x91000108`), little-endian. -/
def c4buf : List Nat :=
  [0x1F, 0x20, 0x03, 0xD5, 0x1F, 0x20, 0x03, 0xD5,
   0x08, 0x00, 0x00, 0x90, 0x08, 0x01, 0x00, 0x91]

mutual

/-- The statement tree contains no aggregate declaration: no `VarDecl`
whose value is an array, tuple or dictionary literal, anywhere in the
statement or inside its loop/if bodies.  (`_gen_array_decl`,
`_gen_tuple_decl` and `_gen_dict_decl` rebind `self.variables[name]`
unconditionally; every other generator path only adds fresh bindings.) -/
def noAggDecl : Node → Bool
  | .varDecl _ (.arrayLit _) => false
  | .varDecl _ (.tupleLit _) => false
  | .varDecl _ (.dictLit _) => false
  | .loopStmt _ _ _ _ _ body => noAggDeclList body
  | .ifStmt _ tb eb => noAggDeclList tb && noAggDeclList eb
  | _ => true
termination_by n => sizeOf n

/-- `noAggDecl` over a statement list. -/
def noAggDeclList : List Node → Bool
  | [] => true
  | s :: t => noAggDecl s && noAggDeclList t
termination_by l => sizeOf l

end

/-- The statement node kinds `_gen_stmt` has no `isinstance` case for
(everything except PrintStmt, VarDecl, LoopStmt, IfStmt, ReturnStmt and
EnumDef). -/
def unsupportedStmt : Node → Bool
  | .printStmt _ => false
  | .varDecl _ _ => false
  | .loopStmt _ _ _ _ _ _ => false
  | .ifStmt _ _ _ => false
  | .returnStmt _ => false
  | .enumDef _ _ => false
  | _ => true

/-! ## Theorems -/

/-- Disjoint-field composition: a word whose low 21 bits are zero,
or-ed with a 16-bit field at bit 5 and a 5-bit field at bit 0, is their
sum. -/
theorem enc_or_eq (hi v reg : Nat) (hv : v < 65536) (hreg : reg < 32) :
    2 ^ 21 * hi ||| v <<< 5 ||| reg = 2 ^ 21 * hi + 32 * v + reg := by
  rw [Nat.shiftLeft_eq]
  rw [← Nat.mul_add_lt_is_or (show v * 2 ^ 5 < 2 ^ 21 by omega) hi]
  have h2 : 2 ^ 21 * hi + v * 2 ^ 5 = 2 ^ 5 * (2 ^ 16 * hi + v) := by ring
  rw [h2, ← Nat.mul_add_lt_is_or hreg (2 ^ 16 * hi + v)]
  ring

/-- Field extraction of `movStep` on a composed move word. -/
theorem movStep_eval (r hi v reg : Nat) (hv : v < 65536) (hreg : reg < 32) :
    movStep r (2 ^ 21 * hi + 32 * v + reg) =
      if hi = 0x294 then v
      else if hi = 0x094 then 2 ^ 32 - 1 - v
      else if hi = 0x395 then r % 2 ^ 16 + v * 2 ^ 16
      else r := by
  unfold movStep
  have h1 : (2 ^ 21 * hi + 32 * v + reg) / 2 ^ 21 = hi := by omega
  have h2 : (2 ^ 21 * hi + 32 * v + reg) / 2 ^ 5 % 2 ^ 16 = v := by omega
  rw [h1, h2]

/-- C2: for every 32-bit signed `value`, `_emit_mov_imm(reg, value)`
emits one instruction exactly when the value is representable in one
16-bit move (`-65536 ≤ value < 65536`, the MOVZ/MOVN range) and a
move-low + move-high-shifted pair otherwise, and simulating the emitted
sequence leaves exactly `value` (signed 32-bit) in the register. -/
theorem c2_mov_imm_roundtrip (reg : Nat) (value : Int) (r0 : Nat)
    (hreg : reg < 32) (hlo : -(2 ^ 31) ≤ value) (hhi : value < 2 ^ 31) :
    ((movImmWords reg value).length = 1 ↔ -65536 ≤ value ∧ value < 65536) ∧
    (¬(-65536 ≤ value ∧ value < 65536) → (movImmWords reg value).length = 2) ∧
    sext32 (runMov r0 (movImmWords reg value)) = value := by
  have hnn : 0 ≤ value % 2 ^ 32 := by omega
  have hlt : value % 2 ^ 32 < 2 ^ 32 := by omega
  have hvc : ((value % 2 ^ 32).toNat : Int) = value % 2 ^ 32 :=
    Int.toNat_of_nonneg hnn
  set v : Nat := (value % 2 ^ 32).toNat with hvdef
  unfold movImmWords runMov
  by_cases h1 : 0 ≤ value ∧ value < 65536
  · have hvv : (v : Int) = value := by rw [hvc]; omega
    have hv16 : v < 65536 := by omega
    rw [if_pos h1]
    refine ⟨by simp; omega, by simp [h1]; omega, ?_⟩
    show sext32 (movStep r0 (0x52800000 ||| v <<< 5 ||| reg)) = value
    rw [show (0x52800000 : Nat) = 2 ^ 21 * 0x294 by norm_num,
      enc_or_eq _ _ _ hv16 hreg, movStep_eval _ _ _ _ hv16 hreg]
    simp only [sext32, sext]
    norm_num
    omega
  · by_cases h2 : -65536 ≤ value ∧ value < 0
    · have hvv : (v : Int) = value + 2 ^ 32 := by rw [hvc]; omega
      have him : 65535 - v % 65536 < 65536 := by omega
      rw [if_neg h1, if_pos h2]
      refine ⟨by simp; omega, by simp [h2]; omega, ?_⟩
      show sext32 (movStep r0 (0x12800000 ||| (65535 - v % 65536) <<< 5 ||| reg)) = value
      rw [show (0x12800000 : Nat) = 2 ^ 21 * 0x094 by norm_num,
        enc_or_eq _ _ _ him hreg, movStep_eval _ _ _ _ him hreg]
      simp only [sext32, sext]
      norm_num
      omega
    · have hvv : (v : Int) = value ∨ (v : Int) = value + 2 ^ 32 := by
        rw [hvc]; omega
      have hvlo : v % 65536 < 65536 := by omega
      have hvhi : v / 2 ^ 16 % 65536 < 65536 := by omega
      rw [if_neg h1, if_neg h2]
      refine ⟨by simp; omega, by simp, ?_⟩
      show sext32 (movStep (movStep r0
          (0x52800000 ||| (v % 65536) <<< 5 ||| reg))
          (0x72A00000 ||| (v / 2 ^ 16 % 65536) <<< 5 ||| reg)) = value
      rw [show (0x52800000 : Nat) = 2 ^ 21 * 0x294 by norm_num,
        enc_or_eq _ _ _ hvlo hreg, movStep_eval _ _ _ _ hvlo hreg,
        show (0x72A00000 : Nat) = 2 ^ 21 * 0x395 by norm_num,
        enc_or_eq _ _ _ hvhi hreg, movStep_eval _ _ _ _ hvhi hreg]
      simp only [sext32, sext]
      norm_num
      have hv32 : v < 2 ^ 32 := by rcases hvv with hvv | hvv <;> omega
      rcases hvv with hvv | hvv <;> (split <;> omega)

/-- C2 witness: the nine listed boundary values round-trip (register 0,
arbitrary initial register value 7), and the single/pair instruction
counts are as claimed at 5 and 70000. -/
theorem c2_witness :
    sext32 (runMov 7 (movImmWords 0 0)) = 0 ∧
    sext32 (runMov 7 (movImmWords 0 1)) = 1 ∧
    sext32 (runMov 7 (movImmWords 0 (-1))) = -1 ∧
    sext32 (runMov 7 (movImmWords 0 32767)) = 32767 ∧
    sext32 (runMov 7 (movImmWords 0 32768)) = 32768 ∧
    sext32 (runMov 7 (movImmWords 0 (-32768))) = -32768 ∧
    sext32 (runMov 7 (movImmWords 0 (-32769))) = -32769 ∧
    sext32 (runMov 7 (movImmWords 0 2147483647)) = 2147483647 ∧
    sext32 (runMov 7 (movImmWords 0 (-2147483648))) = -2147483648 ∧
    (movImmWords 0 5).length = 1 ∧ (movImmWords 0 70000).length = 2 := by
  refine ⟨(c2_mov_imm_roundtrip 0 0 7 (by decide) (by decide) (by decide)).2.2,
    (c2_mov_imm_roundtrip 0 1 7 (by decide) (by decide) (by decide)).2.2,
    (c2_mov_imm_roundtrip 0 (-1) 7 (by decide) (by decide) (by decide)).2.2,
    (c2_mov_imm_roundtrip 0 32767 7 (by decide) (by decide) (by decide)).2.2,
    (c2_mov_imm_roundtrip 0 32768 7 (by decide) (by decide) (by decide)).2.2,
    (c2_mov_imm_roundtrip 0 (-32768) 7 (by decide) (by decide) (by decide)).2.2,
    (c2_mov_imm_roundtrip 0 (-32769) 7 (by decide) (by decide) (by decide)).2.2,
    (c2_mov_imm_roundtrip 0 2147483647 7 (by decide) (by decide) (by decide)).2.2,
    (c2_mov_imm_roundtrip 0 (-2147483648) 7 (by decide) (by decide) (by decide)).2.2,
    ((c2_mov_imm_roundtrip 0 5 7 (by decide) (by decide) (by decide)).1.mpr
      (by decide)),
    ((c2_mov_imm_roundtrip 0 70000 7 (by decide) (by decide) (by decide)).2.1
      (by decide))⟩

/-- C7 counterexample: `_add_double` does not deduplicate.  Adding the
bit pattern of `10.0` twice to a fresh compiler state returns offset 0
and then offset 8 — different offsets — and the data buffer holds two
copies of the 8-byte constant. -/
theorem c7_counterexample :
    (addDouble 0x4024000000000000 ({} : CState)).1 = 0 ∧
    (addDouble 0x4024000000000000
      (addDouble 0x4024000000000000 ({} : CState)).2).1 = 8 ∧
    (addDouble 0x4024000000000000
        (addDouble 0x4024000000000000 ({} : CState)).2).1 ≠
      (addDouble 0x4024000000000000 ({} : CState)).1 ∧
    countOccur (pack64 0x4024000000000000)
      (addDouble 0x4024000000000000
        (addDouble 0x4024000000000000 ({} : CState)).2).2.data = 2 := by
  decide

/-- C7 amended: `_add_double` never deduplicates; every call appends a
fresh 8-byte-aligned copy of the constant after zero padding, returns
the (aligned, stable) offset of that fresh copy, and leaves every other
state component unchanged. -/
theorem c7_add_double_appends (bits : Nat) (st : CState) :
    (addDouble bits st).1 % 8 = 0 ∧
    (addDouble bits st).1 =
      st.data.length + (8 - st.data.length % 8) % 8 ∧
    (addDouble bits st).2 =
      { st with data := st.data ++
          List.replicate ((8 - st.data.length % 8) % 8) 0 ++ pack64 bits } := by
  refine ⟨?_, ?_, ?_⟩
  · show (st.data ++ List.replicate ((8 - st.data.length % 8) % 8) 0).length % 8 = 0
    simp only [List.length_append, List.length_replicate]
    omega
  · show (st.data ++ List.replicate ((8 - st.data.length % 8) % 8) 0).length = _
    simp only [List.length_append, List.length_replicate]
  · show ({ st with data := _ } : CState) = _
    simp only [List.append_assoc]

/-- Helper: a filter over `range N` whose predicate holds at 0 and
nowhere else has exactly one element. -/
theorem count_filter_single (N : Nat) (f : Nat → Bool) (hN : 0 < N)
    (h0 : f 0 = true) (h1 : ∀ i, 1 ≤ i → f i = false) :
    ((List.range N).filter f).length = 1 := by
  induction N with
  | zero => omega
  | succ n ih =>
    rw [List.range_succ, List.filter_append]
    cases n with
    | zero => simp [h0]
    | succ m =>
      rw [List.length_append, ih (by omega)]
      simp [h1 (m + 1) (by omega)]

/-- Python-dict lookup after an update at the same key. -/
theorem dlookup_dinsert_self {α : Type} (k : String) (v : α)
    (l : List (String × α)) : dlookup k (dinsert k v l) = some v := by
  induction l with
  | nil => simp [dinsert, dlookup]
  | cons h t ih =>
    obtain ⟨k', v'⟩ := h
    unfold dinsert
    by_cases hk : k' = k
    · subst hk; simp [dlookup]
    · rw [if_neg hk]
      unfold dlookup
      rw [if_neg (fun he => hk he.symm)]
      exact ih

/-- Helper: a NUL-terminated pattern whose stem is nonempty and
NUL-free occurs nowhere but position 0 in the stem followed by zero
padding. -/
theorem no_late_occur (es : List Nat) (k i : Nat) (hne : es ≠ [])
    (hnz : 0 ∉ es) (hi : 1 ≤ i) :
    ¬ occursAt (es ++ [0]) (es ++ List.replicate (k + 1) 0) i := by
  intro h
  unfold occursAt at h
  have hm : 0 < es.length := List.length_pos.mpr hne
  have hlen := congrArg List.length h
  simp only [List.length_take, List.length_drop, List.length_append,
    List.length_replicate, List.length_cons, List.length_nil] at hlen
  have hik : i ≤ k := by omega
  have key : ∀ t, t < (es ++ [0]).length →
      (es ++ [0])[t]? = (es ++ List.replicate (k + 1) 0)[i + t]? := by
    intro t ht
    rw [← h, List.getElem?_take_of_lt ht, List.getElem?_drop]
  have hplen : (es ++ [0]).length = es.length + 1 := by simp
  have getZero : ∀ j, es.length ≤ j → j < es.length + k + 1 →
      (es ++ List.replicate (k + 1) 0)[j]? = some 0 := by
    intro j hj1 hj2
    rw [List.getElem?_append_right hj1, List.getElem?_replicate]
    rw [if_pos (by omega)]
  have getStem : ∀ t (ht : t < es.length),
      (es ++ [0])[t]? = some (es.get ⟨t, ht⟩) := by
    intro t ht
    rw [List.getElem?_append_left ht]
    exact List.getElem?_eq_getElem ht
  by_cases hcase : i ≤ es.length
  · have ht : es.length - i < es.length := by omega
    have h2 := key (es.length - i) (by omega)
    rw [show i + (es.length - i) = es.length by omega] at h2
    rw [getStem _ ht, getZero es.length (le_refl _) (by omega)] at h2
    exact hnz ((Option.some_inj.mp h2) ▸ List.getElem_mem ht)
  · have h2 := key 0 (by omega)
    simp only [Nat.add_zero] at h2
    rw [getStem 0 hm, getZero i (by omega) (by omega)] at h2
    exact hnz ((Option.some_inj.mp h2) ▸ List.getElem_mem hm)

/-- C6 counterexample: for the empty string the "exactly one
NUL-terminated copy" part fails — `_add_string("")` on a fresh state
leaves a data buffer of eight zero bytes, in which the pattern
`"" + NUL` occurs eight times, not once. -/
theorem c6_counterexample :
    countOccur (enc "" ++ [0]) (addString "" ({} : CState)).2.data = 8 ∧
    ¬ countOccur (enc "" ++ [0]) (addString "" ({} : CState)).2.data = 1 := by
  decide

/-- C6 amended: for a string not previously added whose UTF-8 encoding
is nonempty and NUL-free, `_add_string` returns the current data
length, appends exactly the encoded bytes + NUL + alignment padding
(leaving the buffer 8-byte aligned and the copy at the returned
offset), a second call returns the same offset with the state entirely
unchanged, and from a fresh buffer the NUL-terminated copy occurs
exactly once. -/
theorem c6_add_string_dedup (s : String) (st : CState)
    (habs : dlookup s st.string_offsets = none)
    (hne : enc s ≠ []) (hnz : 0 ∉ enc s) :
    (addString s st).1 = st.data.length ∧
    (addString s st).2.data = st.data ++ enc s ++ [0] ++
      List.replicate ((8 - (st.data ++ enc s ++ [0]).length % 8) % 8) 0 ∧
    (addString s st).2.data.length % 8 = 0 ∧
    addString s (addString s st).2 = ((addString s st).1, (addString s st).2) ∧
    occursAt (enc s ++ [0]) (addString s st).2.data st.data.length ∧
    (st.data = [] → countOccur (enc s ++ [0]) (addString s st).2.data = 1) := by
  have hm : 0 < (enc s).length := List.length_pos.mpr hne
  have hstep : addString s st = (st.data.length,
      { st with
          data := st.data ++ enc s ++ [0] ++
            List.replicate ((8 - (st.data ++ enc s ++ [0]).length % 8) % 8) 0,
          string_offsets := dinsert s st.data.length st.string_offsets }) := by
    unfold addString
    rw [habs]
  rw [hstep]
  refine ⟨rfl, rfl, ?_, ?_, ?_, ?_⟩
  · simp only [List.length_append, List.length_replicate, List.length_cons,
      List.length_nil]
    omega
  · show addString s _ = _
    unfold addString
    simp only [dlookup_dinsert_self]
  · show occursAt (enc s ++ [0]) _ st.data.length
    unfold occursAt
    have hsplit : st.data ++ enc s ++ [0] ++
        List.replicate ((8 - (st.data ++ enc s ++ [0]).length % 8) % 8) 0 =
        st.data ++ ((enc s ++ [0]) ++
          List.replicate ((8 - (st.data ++ enc s ++ [0]).length % 8) % 8) 0) := by
      simp [List.append_assoc]
    rw [hsplit, List.drop_left, List.take_left]
  · intro hdata
    rw [hdata]
    simp only [List.nil_append]
    generalize (8 - (enc s ++ [0]).length % 8) % 8 = k
    unfold countOccur
    apply count_filter_single _ _ (Nat.succ_pos _)
    · simp only [decide_eq_true_eq]
      unfold occursAt
      rw [List.drop_zero, List.take_left]
    · intro i hi
      simp only [decide_eq_false_iff_not]
      cases k with
      | zero =>
        have hnl := no_late_occur (enc s) 0 i hne hnz hi
        simpa using hnl
      | succ k' =>
        have heq : enc s ++ List.replicate (k' + 1 + 1) 0 =
            enc s ++ [0] ++ List.replicate (k' + 1) 0 := by
          simp [List.replicate_succ]
        have hnl := no_late_occur (enc s) (k' + 1) i hne hnz hi
        rw [heq] at hnl
        exact hnl

/-- C6 witness: adding "x" to a fresh compiler state returns offset 0,
the buffer holds exactly one copy of `"x\x00"`, and a second call
returns the same offset without touching the state. -/
theorem c6_witness :
    (addString "x" ({} : CState)).1 = 0 ∧
    countOccur (enc "x" ++ [0]) (addString "x" ({} : CState)).2.data = 1 ∧
    addString "x" (addString "x" ({} : CState)).2 =
      ((addString "x" ({} : CState)).1, (addString "x" ({} : CState)).2) := by
  have h := c6_add_string_dedup "x" {} (by decide) (by decide) (by decide)
  exact ⟨h.1, h.2.2.2.2.2 rfl, h.2.2.2.1⟩

theorem pack32_length (w : Nat) : (pack32 w).length = 4 := rfl

/-- `byteAt` through `take` (index inside the kept prefix). -/
theorem byteAt_take (c : List Nat) (n i : Nat) (h : i < n) :
    byteAt (c.take n) i = byteAt c i := by
  unfold byteAt
  rw [List.getD_eq_getElem?_getD, List.getD_eq_getElem?_getD,
    List.getElem?_take_of_lt h]

/-- `byteAt` through `drop`. -/
theorem byteAt_drop (c : List Nat) (n i : Nat) :
    byteAt (c.drop n) i = byteAt c (n + i) := by
  unfold byteAt
  rw [List.getD_eq_getElem?_getD, List.getD_eq_getElem?_getD,
    List.getElem?_drop]

/-- `byteAt` on the left part of an append. -/
theorem byteAt_append_left (A B : List Nat) (i : Nat) (h : i < A.length) :
    byteAt (A ++ B) i = byteAt A i := by
  unfold byteAt
  rw [List.getD_eq_getElem?_getD, List.getD_eq_getElem?_getD,
    List.getElem?_append_left h]

/-- `byteAt` on the right part of an append. -/
theorem byteAt_append_right (A B : List Nat) (i : Nat) (h : A.length ≤ i) :
    byteAt (A ++ B) i = byteAt B (i - A.length) := by
  unfold byteAt
  rw [List.getD_eq_getElem?_getD, List.getD_eq_getElem?_getD,
    List.getElem?_append_right h]

/-- Patching preserves the buffer length when the patch is in range. -/
theorem patchWord_length (o w : Nat) (c : List Nat) (h : o + 4 ≤ c.length) :
    (patchWord o w c).length = c.length := by
  simp only [patchWord, List.length_append, List.length_take,
    List.length_drop, pack32, List.length_cons, List.length_nil]
  omega

/-- A byte inside the 4 patched bytes. -/
theorem byteAt_patchWord_in (o w j : Nat) (c : List Nat) (hj : j < 4)
    (h : o + 4 ≤ c.length) :
    byteAt (patchWord o w c) (o + j) = byteAt (pack32 w) j := by
  unfold patchWord
  rw [List.append_assoc]
  have hto : (c.take o).length = o := by
    simp only [List.length_take]; omega
  rw [byteAt_append_right _ _ _ (by omega), hto]
  rw [byteAt_append_left _ _ _ (by simp [pack32]; omega)]
  congr 1
  omega

/-- A byte outside the 4 patched bytes. -/
theorem byteAt_patchWord_out (o w i : Nat) (c : List Nat)
    (h : o + 4 ≤ c.length) (hd : i < o ∨ o + 4 ≤ i) :
    byteAt (patchWord o w c) i = byteAt c i := by
  unfold patchWord
  rw [List.append_assoc]
  have hto : (c.take o).length = o := by
    simp only [List.length_take]; omega
  rcases hd with hd | hd
  · rw [byteAt_append_left _ _ _ (by omega), byteAt_take _ _ _ hd]
  · rw [byteAt_append_right _ _ _ (by omega), hto,
      byteAt_append_right _ _ _ (by simp [pack32]; omega), byteAt_drop]
    congr 1
    simp only [pack32, List.length_cons, List.length_nil]
    omega

/-- Reading back the word just patched. -/
theorem readWord_patchWord_self (o w : Nat) (c : List Nat)
    (h : o + 4 ≤ c.length) :
    readWord (patchWord o w c) o = w % 2 ^ 32 := by
  unfold readWord
  have h0 := byteAt_patchWord_in o w 0 c (by omega) h
  have h1 := byteAt_patchWord_in o w 1 c (by omega) h
  have h2 := byteAt_patchWord_in o w 2 c (by omega) h
  have h3 := byteAt_patchWord_in o w 3 c (by omega) h
  rw [Nat.add_zero] at h0
  rw [h0, h1, h2, h3]
  show w % 2 ^ 32 % 2 ^ 8 + 2 ^ 8 * (w % 2 ^ 32 / 2 ^ 8 % 2 ^ 8) +
    2 ^ 16 * (w % 2 ^ 32 / 2 ^ 16 % 2 ^ 8) +
    2 ^ 24 * (w % 2 ^ 32 / 2 ^ 24 % 2 ^ 8) = w % 2 ^ 32
  omega

/-- Reading a word disjoint from the patched region. -/
theorem readWord_patchWord_disjoint (o w o' : Nat) (c : List Nat)
    (h : o + 4 ≤ c.length) (hd : o' + 4 ≤ o ∨ o + 4 ≤ o') :
    readWord (patchWord o w c) o' = readWord c o' := by
  unfold readWord
  rw [byteAt_patchWord_out _ _ _ _ h (by omega),
    byteAt_patchWord_out _ _ _ _ h (by omega),
    byteAt_patchWord_out _ _ _ _ h (by omega),
    byteAt_patchWord_out _ _ _ _ h (by omega)]

/-- `resolveOne` preserves the buffer length. -/
theorem resolveOne_length (cfg : Config) (labels : List (String × Nat))
    (c : List Nat) (b : PendingBranch) (h : b.offset + 4 ≤ c.length) :
    (resolveOne cfg labels c b).length = c.length := by
  unfold resolveOne
  cases dlookup b.label labels with
  | none => rfl
  | some target => exact patchWord_length _ _ _ h

/-- The resolution fold preserves the buffer length. -/
theorem foldl_resolve_length (cfg : Config) (labels : List (String × Nat))
    (l : List PendingBranch) (c : List Nat)
    (h : ∀ b ∈ l, b.offset + 4 ≤ c.length) :
    (l.foldl (resolveOne cfg labels) c).length = c.length := by
  induction l generalizing c with
  | nil => rfl
  | cons hd t ih =>
    rw [List.foldl_cons]
    have hhd := h hd (List.mem_cons_self _ _)
    rw [ih _ fun b hb => by
      rw [resolveOne_length cfg labels c hd hhd]
      exact h b (List.mem_cons_of_mem _ hb)]
    exact resolveOne_length cfg labels c hd hhd

/-- The resolution fold does not touch a word disjoint from every
entry's site. -/
theorem foldl_resolve_disjoint (cfg : Config) (labels : List (String × Nat))
    (l : List PendingBranch) (c : List Nat) (o : Nat)
    (hlen : ∀ b ∈ l, b.offset + 4 ≤ c.length)
    (hd : ∀ b ∈ l, b.offset + 4 ≤ o ∨ o + 4 ≤ b.offset) :
    readWord (l.foldl (resolveOne cfg labels) c) o = readWord c o := by
  induction l generalizing c with
  | nil => rfl
  | cons hd' t ih =>
    rw [List.foldl_cons]
    have hhd := hlen hd' (List.mem_cons_self _ _)
    have hlen' : ∀ b ∈ t, b.offset + 4 ≤ (resolveOne cfg labels c hd').length := by
      intro b hb
      rw [resolveOne_length cfg labels c hd' hhd]
      exact hlen b (List.mem_cons_of_mem _ hb)
    rw [ih _ hlen' fun b hb => hd b (List.mem_cons_of_mem _ hb)]
    unfold resolveOne
    cases hl : dlookup hd'.label labels with
    | none => rfl
    | some target =>
      exact readWord_patchWord_disjoint _ _ _ _ hhd
        (by rcases hd hd' (List.mem_cons_self _ _) with h | h <;> omega)

/-- The word resolution leaves at an entry's own site equals what that
entry's own step writes (or leaves) there, independently of the other
entries. -/
theorem foldl_resolve_at (cfg : Config) (labels : List (String × Nat))
    (l : List PendingBranch) (c : List Nat) (b : PendingBranch)
    (hmem : b ∈ l)
    (hnodup : (l.map PendingBranch.offset).Nodup)
    (halign : ∀ b' ∈ l, b'.offset % 4 = 0)
    (hlen : ∀ b' ∈ l, b'.offset + 4 ≤ c.length) :
    readWord (l.foldl (resolveOne cfg labels) c) b.offset =
      readWord (resolveOne cfg labels c b) b.offset := by
  induction l generalizing c with
  | nil => cases hmem
  | cons hd t ih =>
    rw [List.foldl_cons]
    have hhd := hlen hd (List.mem_cons_self _ _)
    rw [List.map_cons, List.nodup_cons] at hnodup
    rcases List.mem_cons.mp hmem with rfl | hbt
    · -- `b` is the head: the tail never touches its site
      rw [foldl_resolve_disjoint cfg labels t _ b.offset
        (fun b' hb' => by
          rw [resolveOne_length cfg labels c b hhd]
          exact hlen b' (List.mem_cons_of_mem _ hb'))
        (fun b' hb' => by
          have hne : b'.offset ≠ b.offset := fun he =>
            hnodup.1 (he ▸ List.mem_map_of_mem _ hb')
          have := halign b' (List.mem_cons_of_mem _ hb')
          have := halign b (List.mem_cons_self _ _)
          omega)]
    · -- `b` is in the tail
      have hne : hd.offset ≠ b.offset := fun he =>
        hnodup.1 (he ▸ List.mem_map_of_mem _ hbt)
      have hdisj : b.offset + 4 ≤ hd.offset ∨ hd.offset + 4 ≤ b.offset := by
        have := halign hd (List.mem_cons_self _ _)
        have := halign b (List.mem_cons_of_mem _ hbt)
        omega
      have hblen := hlen b (List.mem_cons_of_mem _ hbt)
      have hstep : readWord (resolveOne cfg labels (resolveOne cfg labels c hd) b)
          b.offset = readWord (resolveOne cfg labels c b) b.offset := by
        unfold resolveOne
        cases hlb : dlookup b.label labels with
        | none =>
          cases hlh : dlookup hd.label labels with
          | none => rfl
          | some thd =>
            exact readWord_patchWord_disjoint _ _ _ _ hhd (by omega)
        | some target =>
          cases hlh : dlookup hd.label labels with
          | none => rfl
          | some thd =>
            rw [readWord_patchWord_self _ _ _ (by
                rw [patchWord_length _ _ _ hhd]; exact hblen),
              readWord_patchWord_self _ _ _ hblen]
      rw [ih _ hbt hnodup.2 (fun b' hb' => halign b' (List.mem_cons_of_mem _ hb'))
        (fun b' hb' => by
          rw [resolveOne_length cfg labels c hd hhd]
          exact hlen b' (List.mem_cons_of_mem _ hb')), hstep]

/-- Disjoint-field composition at the 19-bit conditional-branch
layout. -/
theorem enc_or_eq19 (hi v c : Nat) (hv : v < 2 ^ 19) (hc : c < 32) :
    2 ^ 24 * hi ||| v <<< 5 ||| c = 2 ^ 24 * hi + 32 * v + c := by
  rw [Nat.shiftLeft_eq]
  rw [← Nat.mul_add_lt_is_or (show v * 2 ^ 5 < 2 ^ 24 by omega) hi]
  have h2 : 2 ^ 24 * hi + v * 2 ^ 5 = 2 ^ 5 * (2 ^ 19 * hi + v) := by ring
  rw [h2, ← Nat.mul_add_lt_is_or hc (2 ^ 19 * hi + v)]
  ring

/-- The 26-bit unconditional/call branch word in plain arithmetic. -/
theorem enc_wide_eq (base5 d : Nat) :
    2 ^ 26 * base5 ||| (d &&& 0x3FFFFFF) = 2 ^ 26 * base5 + d % 2 ^ 26 := by
  rw [show (0x3FFFFFF : Nat) = 2 ^ 26 - 1 by norm_num,
    Nat.and_pow_two_sub_one_eq_mod]
  exact (Nat.mul_add_lt_is_or (Nat.mod_lt _ (by norm_num)) base5).symm

/-- The 19-bit conditional branch word in plain arithmetic. -/
theorem enc_cond_eq (d c : Nat) (hc : c < 32) :
    0x54000000 ||| ((d &&& 0x7FFFF) <<< 5) ||| c =
      2 ^ 24 * 0x54 + 32 * (d % 2 ^ 19) + c := by
  rw [show (0x7FFFF : Nat) = 2 ^ 19 - 1 by norm_num,
    Nat.and_pow_two_sub_one_eq_mod,
    show (0x54000000 : Nat) = 2 ^ 24 * 0x54 by norm_num]
  exact enc_or_eq19 0x54 (d % 2 ^ 19) c (Nat.mod_lt _ (by norm_num)) hc

/-- Every patched branch word fits in 32 bits. -/
theorem encodeBranch_lt (cfg : Config) (ty : BranchType) (d : Nat)
    (hc1 : cfg.cond_eq < 32) (hc2 : cfg.cond_ne < 32)
    (hc3 : cfg.cond_ge < 32) (hc4 : cfg.cond_le < 32) :
    encodeBranch cfg ty d < 2 ^ 32 := by
  have hm26 : d % 2 ^ 26 < 2 ^ 26 := Nat.mod_lt _ (by norm_num)
  have hm19 : d % 2 ^ 19 < 2 ^ 19 := Nat.mod_lt _ (by norm_num)
  cases ty <;> simp only [encodeBranch]
  · rw [show (0x14000000 : Nat) = 2 ^ 26 * 5 by norm_num, enc_wide_eq]; omega
  · rw [show (0x94000000 : Nat) = 2 ^ 26 * 37 by norm_num, enc_wide_eq]; omega
  · rw [enc_cond_eq _ _ hc1]; omega
  · rw [enc_cond_eq _ _ hc2]; omega
  · rw [enc_cond_eq _ _ hc3]; omega
  · rw [enc_cond_eq _ _ hc4]; omega
  · rw [enc_cond_eq _ _ (by norm_num : (12 : Nat) < 32)]; omega
  · rw [enc_cond_eq _ _ (by norm_num : (11 : Nat) < 32)]; omega

/-- C1: for every pending branch whose label is recorded (in a
well-formed resolution state: distinct 4-aligned in-range sites,
aligned target, five-bit condition codes, and a delta that fits the
branch kind's immediate field), `_resolve_branches` overwrites the 4
bytes at the site with the kind-specific encoding of
`(target - site) // 4`, and decoding the patched word's sign-extended
delta recovers the label's offset: `site + 4 * delta = target`. -/
theorem c1_branch_resolution (cfg : Config) (st : CState) (b : PendingBranch)
    (target : Nat)
    (hmem : b ∈ st.pending_branches)
    (hlabel : dlookup b.label st.label_offsets = some target)
    (hnodup : (st.pending_branches.map PendingBranch.offset).Nodup)
    (halign : ∀ b' ∈ st.pending_branches, b'.offset % 4 = 0)
    (hlen : ∀ b' ∈ st.pending_branches, b'.offset + 4 ≤ st.code.length)
    (htalign : target % 4 = 0)
    (hc1 : cfg.cond_eq < 32) (hc2 : cfg.cond_ne < 32)
    (hc3 : cfg.cond_ge < 32) (hc4 : cfg.cond_le < 32)
    (hfit1 : -(2 ^ (branchImmWidth b.ty - 1)) ≤ ((target : Int) - b.offset) / 4)
    (hfit2 : ((target : Int) - b.offset) / 4 < 2 ^ (branchImmWidth b.ty - 1)) :
    readWord (resolveBranches cfg st).code b.offset =
      encodeBranch cfg b.ty
        ((((target : Int) - b.offset).fdiv 4 % 2 ^ 32).toNat) ∧
    (b.offset : Int) + 4 * decodeBranchDelta b.ty
        (readWord (resolveBranches cfg st).code b.offset) = target := by
  have halignb := halign b hmem
  have hlenb := hlen b hmem
  have h1 : readWord (resolveBranches cfg st).code b.offset =
      encodeBranch cfg b.ty
        ((((target : Int) - b.offset).fdiv 4 % 2 ^ 32).toNat) := by
    show readWord (st.pending_branches.foldl
      (resolveOne cfg st.label_offsets) st.code) b.offset = _
    rw [foldl_resolve_at cfg st.label_offsets _ _ b hmem hnodup halign hlen]
    unfold resolveOne
    rw [hlabel]
    rw [readWord_patchWord_self _ _ _ hlenb]
    exact Nat.mod_eq_of_lt (encodeBranch_lt cfg b.ty _ hc1 hc2 hc3 hc4)
  refine ⟨h1, ?_⟩
  rw [h1]
  rw [Int.fdiv_eq_ediv _ (by norm_num)] at *
  obtain ⟨boff, blabel, bty⟩ := b
  simp only at halignb hfit1 hfit2 ⊢
  cases bty <;>
    simp only [branchImmWidth] at hfit1 hfit2 <;>
    simp only [encodeBranch, decodeBranchDelta]
  · rw [show (0x14000000 : Nat) = 2 ^ 26 * 5 by norm_num, enc_wide_eq]
    unfold sext
    split <;> omega
  · rw [show (0x94000000 : Nat) = 2 ^ 26 * 37 by norm_num, enc_wide_eq]
    unfold sext
    split <;> omega
  · rw [enc_cond_eq _ _ hc1]
    unfold sext
    split <;> omega
  · rw [enc_cond_eq _ _ hc2]
    unfold sext
    split <;> omega
  · rw [enc_cond_eq _ _ hc3]
    unfold sext
    split <;> omega
  · rw [enc_cond_eq _ _ hc4]
    unfold sext
    split <;> omega
  · rw [enc_cond_eq _ _ (by norm_num : (12 : Nat) < 32)]
    unfold sext
    split <;> omega
  · rw [enc_cond_eq _ _ (by norm_num : (11 : Nat) < 32)]
    unfold sext
    split <;> omega

/-- C1 witness: a concrete state with one forward `B` branch at offset
0 targeting label "L" at offset 8; after resolution the site decodes
back to 8. -/
theorem c1_witness :
    readWord (resolveBranches arm64cfg
      { code := pack32 0x14000000 ++ pack32 0 ++ pack32 0,
        label_offsets := [("L", 8)],
        pending_branches := [⟨0, "L", .b⟩] }).code 0 =
      encodeBranch arm64cfg .b ((((8 : Int) - 0).fdiv 4 % 2 ^ 32).toNat) ∧
    (0 : Int) + 4 * decodeBranchDelta .b
      (readWord (resolveBranches arm64cfg
        { code := pack32 0x14000000 ++ pack32 0 ++ pack32 0,
          label_offsets := [("L", 8)],
          pending_branches := [⟨0, "L", .b⟩] }).code 0) = 8 :=
  c1_branch_resolution arm64cfg
    { code := pack32 0x14000000 ++ pack32 0 ++ pack32 0,
      label_offsets := [("L", 8)],
      pending_branches := [⟨0, "L", .b⟩] }
    ⟨0, "L", .b⟩ 8 (by decide) (by decide) (by decide)
    (by decide) (by decide) (by decide)
    (by decide) (by decide) (by decide) (by decide) (by decide) (by decide)

/-- C3: `_add_branch` records the pending entry and writes the
placeholder word `0x14000000` at the site; and for every pending branch
whose label is absent at resolution time (in a well-formed state),
`_resolve_branches` leaves the word at its site unchanged — the
placeholder stays in the buffer. -/
theorem c3_unresolved_branch_skipped :
    (∀ (st : CState) (label : String) (ty : BranchType),
      addBranch label ty st =
        { st with
            pending_branches :=
              st.pending_branches ++ [⟨st.code.length, label, ty⟩],
            code := st.code ++ pack32 0x14000000 } ∧
      readWord (addBranch label ty st).code st.code.length = 0x14000000) ∧
    (∀ (cfg : Config) (st : CState) (b : PendingBranch),
      b ∈ st.pending_branches →
      dlookup b.label st.label_offsets = none →
      (st.pending_branches.map PendingBranch.offset).Nodup →
      (∀ b' ∈ st.pending_branches, b'.offset % 4 = 0) →
      (∀ b' ∈ st.pending_branches, b'.offset + 4 ≤ st.code.length) →
      readWord (resolveBranches cfg st).code b.offset =
        readWord st.code b.offset) := by
  constructor
  · intro st label ty
    refine ⟨rfl, ?_⟩
    show readWord (st.code ++ pack32 0x14000000) st.code.length = 0x14000000
    unfold readWord
    rw [byteAt_append_right _ _ _ (by omega),
      byteAt_append_right _ _ _ (by omega),
      byteAt_append_right _ _ _ (by omega),
      byteAt_append_right _ _ _ (by omega)]
    simp only [Nat.sub_self]
    rw [show st.code.length + 1 - st.code.length = 1 by omega,
      show st.code.length + 2 - st.code.length = 2 by omega,
      show st.code.length + 3 - st.code.length = 3 by omega]
    decide
  · intro cfg st b hmem hlabel hnodup halign hlen
    show readWord (st.pending_branches.foldl
      (resolveOne cfg st.label_offsets) st.code) b.offset = _
    rw [foldl_resolve_at cfg st.label_offsets _ _ b hmem hnodup halign hlen]
    unfold resolveOne
    rw [hlabel]

/-- C3 witness: a state with an unresolved branch at offset 4 (label
"missing") and a resolved one at offset 0; after `_add_branch` the
placeholder sits at the site, and resolution leaves it untouched. -/
theorem c3_witness :
    readWord (addBranch "missing" BranchType.b
      { code := pack32 0x14000000 }).code 4 = 0x14000000 ∧
    readWord (resolveBranches arm64cfg
      { code := pack32 0x14000000 ++ pack32 0x14000000,
        label_offsets := [("L", 0)],
        pending_branches := [⟨0, "L", .b⟩, ⟨4, "missing", .b⟩] }).code 4 =
      readWord (pack32 0x14000000 ++ pack32 0x14000000) 4 := by
  constructor
  · have h := (c3_unresolved_branch_skipped.1
      { code := pack32 0x14000000 } "missing" BranchType.b).2
    simpa using h
  · exact c3_unresolved_branch_skipped.2 arm64cfg
      { code := pack32 0x14000000 ++ pack32 0x14000000,
        label_offsets := [("L", 0)],
        pending_branches := [⟨0, "L", .b⟩, ⟨4, "missing", .b⟩] }
      ⟨4, "missing", .b⟩ (by decide) (by decide) (by decide)
      (by decide) (by decide)

/-- A word matching the ADRP mask cannot match the ADD mask (bit 24
differs). -/
theorem adrp_not_add (w : Nat) (h : w &&& 0x9F000000 = 0x90000000) :
    ¬(w &&& 0xFF800000 = 0x91000000) := by
  intro h2
  have t1 : (w &&& 0x9F000000).testBit 24 = (0x90000000 : Nat).testBit 24 := by
    rw [h]
  have t2 : (w &&& 0xFF800000).testBit 24 = (0x91000000 : Nat).testBit 24 := by
    rw [h2]
  rw [Nat.testBit_and,
    show (0x9F000000 : Nat).testBit 24 = true by decide,
    show (0x90000000 : Nat).testBit 24 = false by decide] at t1
  rw [Nat.testBit_and,
    show (0xFF800000 : Nat).testBit 24 = true by decide,
    show (0x91000000 : Nat).testBit 24 = true by decide] at t2
  simp at t1 t2
  rw [t1] at t2
  cases t2

/-- A rewritten ADD word (stored modulo 2^32) still carries bit 24 and
therefore never matches the ADRP mask. -/
theorem addRewrite_not_adrp (dva A : Nat) (h : A &&& 0xFF800000 = 0x91000000) :
    ¬((addRewrite dva A % 2 ^ 32) &&& 0x9F000000 = 0x90000000) := by
  intro h2
  have hbit : A.testBit 24 = true := by
    have t := congrArg (fun x => Nat.testBit x 24) h
    simp only [Nat.testBit_and] at t
    rw [show (0xFF800000 : Nat).testBit 24 = true by decide,
      show (0x91000000 : Nat).testBit 24 = true by decide] at t
    simpa using t
  have hno : (((dva % 4096 + A / 2 ^ 10 % 2 ^ 12) % 2 ^ 12) <<< 10).testBit 24 =
      false := by
    rw [Nat.testBit_shiftLeft,
      Nat.testBit_lt_two_pow
        (show (dva % 4096 + A / 2 ^ 10 % 2 ^ 12) % 2 ^ 12 < 2 ^ (24 - 10) by
          omega)]
    simp
  have t2 := congrArg (fun x => Nat.testBit x 24) h2
  simp only [Nat.testBit_and, Nat.testBit_mod_two_pow] at t2
  unfold addRewrite at t2
  simp only [Nat.testBit_or, Nat.testBit_and] at t2
  rw [hno, hbit,
    show (0xFFC003FF : Nat).testBit 24 = true by decide,
    show (0x9F000000 : Nat).testBit 24 = true by decide,
    show (0x90000000 : Nat).testBit 24 = false by decide] at t2
  simp at t2

/-- `fixStep` preserves the buffer length while the loop guard holds. -/
theorem fixStep_length (cva dva : Nat) (code : List Nat) (i : Nat)
    (h : i + 8 ≤ code.length) :
    (fixStep cva dva code i).length = code.length := by
  simp only [fixStep]
  split
  · split
    · rw [patchWord_length _ _ _ (by
        rw [patchWord_length _ _ _ (by omega)]; omega),
        patchWord_length _ _ _ (by omega)]
    · exact patchWord_length _ _ _ (by omega)
  · rfl

/-- `fixStep` does not touch words disjoint from its two patch
slots. -/
theorem fixStep_disjoint (cva dva : Nat) (code : List Nat) (i o : Nat)
    (h : i + 8 ≤ code.length) (hd : o + 4 ≤ i ∨ i + 8 ≤ o) :
    readWord (fixStep cva dva code i) o = readWord code o := by
  simp only [fixStep]
  split
  · have h1 : i + 4 ≤ code.length := by omega
    split
    · rw [readWord_patchWord_disjoint _ _ _ _ (by
          rw [patchWord_length _ _ _ h1]; omega)
        (by omega), readWord_patchWord_disjoint _ _ _ _ h1 (by omega)]
    · exact readWord_patchWord_disjoint _ _ _ _ h1 (by omega)
  · rfl

/-- While the scan is strictly below an ADRP site (4-aligned offsets),
one loop step leaves both the ADRP word and its partner word
unchanged. -/
theorem fixStep_keeps (cva dva : Nat) (code : List Nat) (j i : Nat)
    (h4j : j % 4 = 0) (h4i : i % 4 = 0) (hji : j + 4 ≤ i)
    (hjlen : j + 8 < code.length)
    (hadrp : readWord code i &&& 0x9F000000 = 0x90000000) :
    readWord (fixStep cva dva code j) i = readWord code i ∧
    readWord (fixStep cva dva code j) (i + 4) = readWord code (i + 4) := by
  simp only [fixStep]
  by_cases hm : readWord code j &&& 0x9F000000 = 0x90000000
  · rw [if_pos hm]
    have hjb : j + 4 ≤ code.length := by omega
    have e1 : readWord (patchWord j (adrpRewrite cva dva j (readWord code j))
        code) i = readWord code i :=
      readWord_patchWord_disjoint _ _ _ _ hjb (Or.inr (by omega))
    have e2 : readWord (patchWord j (adrpRewrite cva dva j (readWord code j))
        code) (i + 4) = readWord code (i + 4) :=
      readWord_patchWord_disjoint _ _ _ _ hjb (Or.inr (by omega))
    by_cases hji4 : j + 4 = i
    · subst hji4
      rw [e1, if_neg (adrp_not_add _ hadrp)]
      exact ⟨e1, e2⟩
    · have hj8 : j + 8 ≤ i := by omega
      split
      · have hlen1 : j + 4 + 4 ≤ (patchWord j
            (adrpRewrite cva dva j (readWord code j)) code).length := by
          rw [patchWord_length _ _ _ hjb]; omega
        constructor
        · rw [readWord_patchWord_disjoint _ _ _ _ hlen1 (Or.inr (by omega)), e1]
        · rw [readWord_patchWord_disjoint _ _ _ _ hlen1 (Or.inr (by omega)), e2]
      · exact ⟨e1, e2⟩
  · rw [if_neg hm]
    exact ⟨rfl, rfl⟩

/-- Once the scan has passed a word (`o + 4 ≤ j`), the rest of the
loop never modifies it. -/
theorem fixAdrpAdd_preserve (cva dva : Nat) :
    ∀ (n : Nat) (code : List Nat) (j o : Nat), code.length - j ≤ n →
    o + 4 ≤ j →
    readWord (fixAdrpAdd cva dva code j) o = readWord code o := by
  intro n
  induction n with
  | zero =>
    intro code j o hn ho
    rw [fixAdrpAdd, if_neg (by omega)]
  | succ n ih =>
    intro code j o hn ho
    rw [fixAdrpAdd]
    by_cases hj : j + 8 < code.length
    · rw [if_pos hj]
      rw [ih _ _ _ (by rw [fixStep_length _ _ _ _ (by omega)]; omega) (by omega)]
      exact fixStep_disjoint _ _ _ _ _ (by omega) (Or.inl ho)
    · rw [if_neg hj]

/-- Resuming the loop at a word that does not match the ADRP mask
leaves that word unchanged. -/
theorem fixAdrpAdd_preserve_nonadrp (cva dva : Nat) (code : List Nat) (j : Nat)
    (hm : ¬(readWord code j &&& 0x9F000000 = 0x90000000)) :
    readWord (fixAdrpAdd cva dva code j) j = readWord code j := by
  rw [fixAdrpAdd]
  by_cases hj : j + 8 < code.length
  · rw [if_pos hj]
    have hstep : fixStep cva dva code j = code := by
      simp only [fixStep]
      rw [if_neg hm]
    rw [hstep]
    exact fixAdrpAdd_preserve cva dva (code.length - (j + 4)) code (j + 4) j
      (le_refl _) (by omega)
  · rw [if_neg hj]

/-- The full fixup-loop characterisation at an ADRP site strictly
inside the scanned region: the ADRP word is rewritten, and the partner
word is rewritten too when it matches the ADD mask. -/
theorem fixAdrpAdd_spec (cva dva : Nat) :
    ∀ (n : Nat) (code : List Nat) (j i : Nat), code.length - j ≤ n →
    j % 4 = 0 → i % 4 = 0 → j ≤ i → i + 8 < code.length →
    readWord code i &&& 0x9F000000 = 0x90000000 →
    readWord (fixAdrpAdd cva dva code j) i =
      adrpRewrite cva dva i (readWord code i) % 2 ^ 32 ∧
    (readWord code (i + 4) &&& 0xFF800000 = 0x91000000 →
      readWord (fixAdrpAdd cva dva code j) (i + 4) =
        addRewrite dva (readWord code (i + 4)) % 2 ^ 32) := by
  intro n
  induction n with
  | zero =>
    intro code j i hn _ _ hji hin _
    omega
  | succ n ih =>
    intro code j i hn h4j h4i hji hin hadrp
    rw [fixAdrpAdd, if_pos (by omega)]
    by_cases hcase : j = i
    · -- the step at `i` performs the rewrite, the rest preserves it
      subst hcase
      have hjb : j + 4 ≤ code.length := by omega
      have hc1len : (patchWord j (adrpRewrite cva dva j (readWord code j))
          code).length = code.length := patchWord_length _ _ _ hjb
      have hstep : fixStep cva dva code j =
          if readWord code (j + 4) &&& 0xFF800000 = 0x91000000 then
            patchWord (j + 4) (addRewrite dva (readWord code (j + 4)))
              (patchWord j (adrpRewrite cva dva j (readWord code j)) code)
          else patchWord j (adrpRewrite cva dva j (readWord code j)) code := by
        simp only [fixStep]
        rw [if_pos hadrp,
          readWord_patchWord_disjoint _ _ _ _ hjb (Or.inr (by omega))]
      rw [hstep]
      by_cases hadd : readWord code (j + 4) &&& 0xFF800000 = 0x91000000
      · rw [if_pos hadd]
        constructor
        · rw [fixAdrpAdd_preserve cva dva
            (patchWord (j + 4) (addRewrite dva (readWord code (j + 4)))
              (patchWord j (adrpRewrite cva dva j (readWord code j))
                code)).length _ _ _ (Nat.sub_le _ _) (by omega)]
          rw [readWord_patchWord_disjoint _ _ _ _ (by rw [hc1len]; omega)
            (Or.inl (by omega))]
          exact readWord_patchWord_self _ _ _ hjb
        · intro _
          have hstepA : readWord (patchWord (j + 4)
              (addRewrite dva (readWord code (j + 4)))
              (patchWord j (adrpRewrite cva dva j (readWord code j)) code))
              (j + 4) = addRewrite dva (readWord code (j + 4)) % 2 ^ 32 :=
            readWord_patchWord_self _ _ _ (by rw [hc1len]; omega)
          rw [fixAdrpAdd_preserve_nonadrp cva dva _ _ (by
              rw [hstepA]
              exact addRewrite_not_adrp dva _ hadd), hstepA]
      · rw [if_neg hadd]
        refine ⟨?_, fun h => absurd h hadd⟩
        rw [fixAdrpAdd_preserve cva dva
          (patchWord j (adrpRewrite cva dva j (readWord code j))
            code).length _ _ _ (Nat.sub_le _ _) (by omega)]
        exact readWord_patchWord_self _ _ _ hjb
    · -- the scan is still below `i`: the step keeps both words
      have hji4 : j + 4 ≤ i := by omega
      have hkeep := fixStep_keeps cva dva code j i h4j h4i hji4 (by omega) hadrp
      have hlen : (fixStep cva dva code j).length = code.length :=
        fixStep_length _ _ _ _ (by omega)
      have hrec := ih (fixStep cva dva code j) (j + 4) i
        (by rw [hlen]; omega) (by omega) h4i (by omega) (by rw [hlen]; omega)
        (by rw [hkeep.1]; exact hadrp)
      rw [hkeep.1, hkeep.2] at hrec
      exact hrec

/-- C4 counterexample: the fixup pass does not rewrite a pair whose 8
bytes end exactly at the end of the buffer.  In the 16-byte buffer
`c4buf` the last two words are an ADRP/ADD pair (masks match), the page
delta between the chosen code and data addresses is non-zero (so the
claimed rewrite would change the ADRP word), yet the pass leaves the
buffer completely unchanged: the loop guard `i < len(code) - 8` stops
before `i = 8`. -/
theorem c4_counterexample :
    fixAdrpAdd 0x100004000 0x100008000 c4buf 0 = c4buf ∧
    readWord c4buf 8 &&& 0x9F000000 = 0x90000000 ∧
    readWord c4buf 12 &&& 0xFF800000 = 0x91000000 ∧
    adrpRewrite 0x100004000 0x100008000 8 (readWord c4buf 8) % 2 ^ 32 ≠
      readWord c4buf 8 := by
  refine ⟨?_, by decide, by decide, by decide⟩
  rw [fixAdrpAdd, if_pos (by decide),
    show fixStep 0x100004000 0x100008000 c4buf 0 = c4buf by decide]
  show fixAdrpAdd 0x100004000 0x100008000 c4buf 4 = c4buf
  rw [fixAdrpAdd, if_pos (by decide),
    show fixStep 0x100004000 0x100008000 c4buf 4 = c4buf by decide]
  show fixAdrpAdd 0x100004000 0x100008000 c4buf 8 = c4buf
  rw [fixAdrpAdd, if_neg (by decide)]

/-- C4 amended: the fixup pass rewrites every ADRP/ADD pair whose 8
bytes end strictly before the final 4 bytes of the padded buffer
(`i + 8 < len`): the ADRP word at a 4-aligned matching offset becomes
the recomputed page-delta form, and the following word, when it matches
the ADD mask, gains the data section's within-page offset.  A pair
whose 8 bytes end exactly at the end of the buffer is skipped. -/
theorem c4_fixup_rewrites (cva dva : Nat) (code : List Nat) (i : Nat)
    (h4i : i % 4 = 0) (hin : i + 8 < code.length)
    (hadrp : readWord code i &&& 0x9F000000 = 0x90000000) :
    readWord (fixAdrpAdd cva dva code 0) i =
      adrpRewrite cva dva i (readWord code i) % 2 ^ 32 ∧
    (readWord code (i + 4) &&& 0xFF800000 = 0x91000000 →
      readWord (fixAdrpAdd cva dva code 0) (i + 4) =
        addRewrite dva (readWord code (i + 4)) % 2 ^ 32) :=
  fixAdrpAdd_spec cva dva code.length code 0 i (Nat.sub_le _ _) rfl h4i
    (Nat.zero_le _) hin hadrp

/-- C4 witness: in a 16-byte buffer with the ADRP/ADD pair at offsets
4..12 (strictly inside), the pass rewrites both words. -/
theorem c4_witness :
    readWord (fixAdrpAdd 0x100004000 0x100008000
      [0x1F, 0x20, 0x03, 0xD5, 0x08, 0x00, 0x00, 0x90,
       0x08, 0x01, 0x00, 0x91, 0x1F, 0x20, 0x03, 0xD5] 0) 4 =
      adrpRewrite 0x100004000 0x100008000 4
        (readWord [0x1F, 0x20, 0x03, 0xD5, 0x08, 0x00, 0x00, 0x90,
          0x08, 0x01, 0x00, 0x91, 0x1F, 0x20, 0x03, 0xD5] 4) % 2 ^ 32 ∧
    readWord (fixAdrpAdd 0x100004000 0x100008000
      [0x1F, 0x20, 0x03, 0xD5, 0x08, 0x00, 0x00, 0x90,
       0x08, 0x01, 0x00, 0x91, 0x1F, 0x20, 0x03, 0xD5] 0) 8 =
      addRewrite 0x100008000
        (readWord [0x1F, 0x20, 0x03, 0xD5, 0x08, 0x00, 0x00, 0x90,
          0x08, 0x01, 0x00, 0x91, 0x1F, 0x20, 0x03, 0xD5] 8) % 2 ^ 32 := by
  have h := c4_fixup_rewrites 0x100004000 0x100008000
    [0x1F, 0x20, 0x03, 0xD5, 0x08, 0x00, 0x00, 0x90,
     0x08, 0x01, 0x00, 0x91, 0x1F, 0x20, 0x03, 0xD5] 4
    (by decide) (by decide) (by decide)
  exact ⟨h.1, h.2 (by decide)⟩

theorem pack64_length (w : Nat) : (pack64 w).length = 8 := rfl

theorem pack32_take (w : Nat) : (pack32 w).take 4 = pack32 w := rfl

theorem pack64_take (w : Nat) : (pack64 w).take 8 = pack64 w := rfl

theorem padStr_length (s : String) (n : Nat) : (padStr s n).length = n := by
  simp only [padStr, List.length_append, List.length_take,
    List.length_replicate]
  omega

/-- Dropping past a whole left chunk of an append. -/
theorem drop_chunkL (A B : List Nat) (n : Nat) (h : A.length ≤ n) :
    (A ++ B).drop n = B.drop (n - A.length) := by
  induction A generalizing n with
  | nil => simp
  | cons a t ih =>
    cases n with
    | zero => simp at h
    | succ m =>
      simp only [List.cons_append, List.drop_succ_cons, List.length_cons]
      rw [ih _ (by simpa using h)]
      congr 1
      omega

/-- A fold whose body leaves the variable table unchanged leaves it
unchanged. -/
theorem vars_foldl {α : Type} (f : CState → α → CState) (l : List α)
    (st : CState) (h : ∀ s a, (f s a).vars = s.vars) :
    (l.foldl f st).vars = st.vars := by
  induction l generalizing st with
  | nil => rfl
  | cons a t ih => rw [List.foldl_cons, ih, h]

theorem emit_vars (w : Nat) (st : CState) : (emit w st).vars = st.vars := by
  rw [emit]

theorem emitMovImm_vars (reg : Nat) (v : Int) (st : CState) :
    (emitMovImm reg v st).vars = st.vars :=
  vars_foldl _ _ _ (fun _ _ => rfl)

theorem addString_vars (s : String) (st : CState) :
    ((addString s st).2).vars = st.vars := by
  unfold addString
  split <;> rfl

theorem addDouble_vars (b : Nat) (st : CState) :
    ((addDouble b st).2).vars = st.vars := by
  rw [addDouble]

theorem addBranch_vars (l : String) (ty : BranchType) (st : CState) :
    (addBranch l ty st).vars = st.vars := by
  rw [addBranch, emit_vars]

theorem condBranch_vars (op lbl : String) (st : CState) :
    (condBranch op lbl st).vars = st.vars := by
  unfold condBranch
  split <;> (try split) <;> (try split) <;> (try split) <;> (try split) <;>
    (try split) <;> rfl

theorem emitStore_vars (r : Nat) (o : Int) (st : CState) :
    (emitStore r o st).vars = st.vars := by
  rw [emitStore, emit_vars]

theorem emitLoad_vars (r : Nat) (o : Int) (st : CState) :
    (emitLoad r o st).vars = st.vars := by
  rw [emitLoad, emit_vars]

theorem emitStoreX_vars (r : Nat) (o : Int) (st : CState) :
    (emitStoreX r o st).vars = st.vars := by
  rw [emitStoreX, emit_vars]

theorem emitLoadX_vars (r : Nat) (o : Int) (st : CState) :
    (emitLoadX r o st).vars = st.vars := by
  rw [emitLoadX, emit_vars]

theorem emitStoreD_vars (r : Nat) (o : Int) (st : CState) :
    (emitStoreD r o st).vars = st.vars := by
  rw [emitStoreD, emit_vars]

theorem emitLoadD_vars (r : Nat) (o : Int) (st : CState) :
    (emitLoadD r o st).vars = st.vars := by
  rw [emitLoadD, emit_vars]

theorem emitAdrpAdd_vars (cfg : Config) (r d : Nat) (st : CState) :
    (emitAdrpAdd cfg r d st).vars = st.vars := by
  rw [emitAdrpAdd, emit_vars, emit_vars]

theorem emitWriteSyscall_vars (cfg : Config) (d l : Nat) (st : CState) :
    (emitWriteSyscall cfg d l st).vars = st.vars := by
  simp only [emitWriteSyscall, emit_vars, emitMovImm_vars, emitAdrpAdd_vars]

theorem emitScanBackBranch_vars (s : Nat) (st : CState) :
    (emitScanBackBranch s st).vars = st.vars := by
  simp only [emitScanBackBranch, emit_vars]

theorem emitPrintCstring_vars (cfg : Config) (st : CState) :
    (emitPrintCstring cfg st).vars = st.vars := by
  simp only [emitPrintCstring, emit_vars, emitScanBackBranch_vars]

theorem emitPrintCstringNoNewline_vars (cfg : Config) (st : CState) :
    (emitPrintCstringNoNewline cfg st).vars = st.vars := by
  simp only [emitPrintCstringNoNewline, emit_vars, emitScanBackBranch_vars]

theorem emitPrintIntNoNewline_vars (cfg : Config) (st : CState) :
    (emitPrintIntNoNewline cfg st).vars = st.vars := by
  simp only [emitPrintIntNoNewline, emit_vars, emitScanBackBranch_vars]

theorem emitCallPrintInt_vars (st : CState) :
    (emitCallPrintInt st).vars = st.vars := by
  simp only [emitCallPrintInt, emit_vars]

theorem emitCallPrintFloat_vars (st : CState) :
    (emitCallPrintFloat st).vars = st.vars := by
  simp only [emitCallPrintFloat, emit_vars]

set_option maxRecDepth 2000

theorem setLabel_vars (l : String) (st : CState) :
    (setLabel l st).vars = st.vars := by
  rw [setLabel]

theorem markFloat_vars (n : String) (st : CState) :
    (markFloat n st).vars = st.vars := by
  rw [markFloat]

theorem markEnumVar_vars (n : String) (st : CState) :
    (markEnumVar n st).vars = st.vars := by
  rw [markEnumVar]

theorem bumpStack_vars (st : CState) : (bumpStack st).vars = st.vars := by
  rw [bumpStack]

theorem emitPrintBool_vars (cfg : Config) (nl : Bool) (st : CState) :
    (emitPrintBool cfg nl st).vars = st.vars := by
  simp only [emitPrintBool, emit_vars, addBranch_vars, emitWriteSyscall_vars,
    addString_vars, setLabel_vars]

theorem emitPrintFullArrayInline_vars (cfg : Config) (info : ArrInfo)
    (st : CState) : (emitPrintFullArrayInline cfg info st).vars = st.vars := by
  simp only [emitPrintFullArrayInline]
  rw [emitWriteSyscall_vars, addString_vars, vars_foldl]
  · rw [emitWriteSyscall_vars, addString_vars]
  · intro s a
    simp only [emitPrintIntNoNewline_vars, emitLoad_vars]
    split <;> simp only [emitWriteSyscall_vars, addString_vars]

theorem emitPrintFullArray_vars (cfg : Config) (name : String) (info : ArrInfo)
    (st : CState) : (emitPrintFullArray cfg name info st).vars = st.vars := by
  simp only [emitPrintFullArray]
  split
  · rw [emitWriteSyscall_vars, addString_vars, vars_foldl]
    · rw [emitWriteSyscall_vars, addString_vars]
    · intro s a
      simp only [emitPrintCstringNoNewline_vars, emitLoadX_vars]
      split <;> simp only [emitWriteSyscall_vars, addString_vars]
  · split
    · rw [emitWriteSyscall_vars, addString_vars, vars_foldl]
      · rw [emitWriteSyscall_vars, addString_vars]
      · intro s a
        split
        · rw [emitPrintFullArrayInline_vars]
          split <;> simp only [emitWriteSyscall_vars, addString_vars]
        · split <;> simp only [emitWriteSyscall_vars, addString_vars]
    · rw [emitWriteSyscall_vars, addString_vars, vars_foldl]
      · rw [emitWriteSyscall_vars, addString_vars]
      · intro s a
        simp only [emitPrintIntNoNewline_vars, emitLoad_vars]
        split <;> simp only [emitWriteSyscall_vars, addString_vars]

theorem printTupleBlock_vars (cfg : Config) (tup : TupInfo) (st : CState) :
    (printTupleBlock cfg tup st).vars = st.vars := by
  simp only [printTupleBlock]
  rw [emitWriteSyscall_vars, addString_vars, vars_foldl]
  · rw [emitWriteSyscall_vars, addString_vars]
  · intro s a
    repeat' split
    all_goals first
      | (simp only [emitPrintCstringNoNewline_vars, emitLoadX_vars,
          emitLoad_vars, emitPrintBool_vars, emitPrintIntNoNewline_vars,
          emitWriteSyscall_vars, addString_vars]; done)
      | rfl

theorem printDictValueInt_vars (cfg : Config) (e' : DictEntry)
    (s : CState) : (printDictValueInt cfg e' s).vars = s.vars := by
  unfold printDictValueInt
  repeat' split
  all_goals
    simp only [emitPrintFullArrayInline_vars, emitPrintIntNoNewline_vars,
      emitLoad_vars]

theorem printDictEntryStep_vars (cfg : Config) (s : CState)
    (ie : Nat × DictEntry) : (printDictEntryStep cfg s ie).vars = s.vars := by
  simp only [printDictEntryStep]
  repeat' split
  all_goals first
    | (simp only [emitPrintCstringNoNewline_vars, emitLoadX_vars,
        emitLoad_vars, emitPrintBool_vars, emitPrintIntNoNewline_vars,
        printDictValueInt_vars, emitWriteSyscall_vars,
        addString_vars]; done)
    | rfl

theorem printDictBlock_vars (cfg : Config) (entries : List DictEntry)
    (st : CState) : (printDictBlock cfg entries st).vars = st.vars := by
  simp only [printDictBlock]
  split
  · rw [emitWriteSyscall_vars, addString_vars]
  · rw [emitWriteSyscall_vars, addString_vars, vars_foldl]
    · rw [emitWriteSyscall_vars, addString_vars]
    · intro s a
      rw [printDictEntryStep_vars]

theorem dlookup_dinsert_ne {α : Type} (k k' : String) (v : α)
    (l : List (String × α)) (h : k ≠ k') :
    dlookup k (dinsert k' v l) = dlookup k l := by
  induction l with
  | nil => simp only [dinsert, dlookup, if_neg h]
  | cons p t ih =>
    obtain ⟨a, b⟩ := p
    simp only [dinsert]
    by_cases hak : a = k'
    · subst hak
      rw [if_pos rfl]
      simp only [dlookup, if_neg h]
    · rw [if_neg hak]
      simp only [dlookup]
      by_cases hka : k = a
      · rw [if_pos hka, if_pos hka]
      · rw [if_neg hka, if_neg hka, ih]

theorem dmem_false_dlookup {α : Type} (k : String) (l : List (String × α))
    (h : dmem k l = false) : dlookup k l = none := by
  unfold dmem at h
  cases hd : dlookup k l with
  | none => rfl
  | some v => rw [hd] at h; simp at h

/-- The guarded first-binding step never rebinds: an existing binding
keeps its offset. -/
theorem bindVar_lookup (name : String) (st : CState) (v : String) (o : Nat)
    (h : dlookup v st.vars = some o) :
    dlookup v (bindVar name st).vars = some o := by
  unfold bindVar
  split
  · exact h
  · rename_i hmem
    have hm : dmem name st.vars = false := by
      revert hmem; cases dmem name st.vars <;> simp
    show dlookup v (dinsert name st.stack_offset st.vars) = some o
    by_cases hv : v = name
    · rw [hv, dmem_false_dlookup name st.vars hm] at h
      simp at h
    · rw [dlookup_dinsert_ne v name _ _ hv]
      exact h

/-- The expression generators (`_gen_expr`, its call-argument loop, and
`_gen_array_index_load`) never touch `self.variables`. -/
theorem expr_vars_master (cfg : Config) : ∀ k : Nat,
    (∀ (n : Node) (st : CState), sizeOf n ≤ k →
      (genExpr cfg n st).vars = st.vars) ∧
    (∀ (i : Nat) (args : List Node) (st : CState), sizeOf args ≤ k →
      (genCallArgs cfg i args st).vars = st.vars) ∧
    (∀ (nm : String) (idx : Node) (b : Bool) (st : CState), sizeOf idx ≤ k →
      (genArrayIndexLoad cfg nm idx b st).vars = st.vars) := by
  intro k
  induction k using Nat.strong_induction_on with
  | _ k ih =>
    have hE : ∀ (n : Node) (st : CState), sizeOf n ≤ k →
        (genExpr cfg n st).vars = st.vars := by
      intro n st hn
      cases n <;> try (unfold genExpr; rfl)
      case lit v =>
        cases v <;> simp only [genExpr, emitMovImm_vars, emit_vars]
      case varRef name =>
        simp only [genExpr]
        split
        · split
          · rw [emitLoadX_vars]
          · rw [emitLoad_vars]
        · rw [emit_vars]
      case binaryOp l op r =>
        have hsz : sizeOf l < k ∧ sizeOf r < k := by
          have := hn; simp at this; omega
        have Hl : ∀ s, (genExpr cfg l s).vars = s.vars :=
          fun s => (ih _ hsz.1).1 l s (Nat.le_refl _)
        have Hr : ∀ s, (genExpr cfg r s).vars = s.vars :=
          fun s => (ih _ hsz.2).1 r s (Nat.le_refl _)
        simp only [genExpr]
        repeat' split
        all_goals first
          | (simp only [emit_vars, Hl, Hr])
          | rfl
      case indexAccess arr index =>
        have hsz : sizeOf index < k := by
          have := hn; simp at this; omega
        have HA : ∀ nm b s, (genArrayIndexLoad cfg nm index b s).vars = s.vars :=
          fun nm b s => (ih _ hsz).2.2 nm index b s (Nat.le_refl _)
        cases arr <;> try (unfold genExpr; rfl)
        case varRef aname =>
          rw [genExpr]
          repeat' split
          all_goals first
            | (simp only [emitAdrpAdd_vars, addString_vars, HA])
            | rfl
        case indexAccess a2 i2 =>
          cases a2 <;> try (unfold genExpr; rfl)
          case varRef oname =>
            rw [genExpr]
            repeat' split
            all_goals first
              | (simp only [HA]; done)
              | rfl
              | (simp only []
                 split <;> first
                   | (simp only [HA]; done)
                   | rfl)
      case funcCall name args =>
        have hsz : sizeOf args < k := by
          have := hn; simp at this; omega
        have HC : ∀ i s, (genCallArgs cfg i args s).vars = s.vars :=
          fun i s => (ih _ hsz).2.1 i args s (Nat.le_refl _)
        simp only [genExpr]
        split
        · rw [addBranch_vars, vars_foldl]
          · rw [HC]
          · intro s a; rw [emit_vars]
        · rfl
    have hC : ∀ (i : Nat) (args : List Node) (st : CState), sizeOf args ≤ k →
        (genCallArgs cfg i args st).vars = st.vars := by
      intro i args st hargs
      cases args with
      | nil => unfold genCallArgs; rfl
      | cons a t =>
        have hsz : sizeOf a ≤ k ∧ sizeOf t < k := by
          have := hargs; simp at this; omega
        simp only [genCallArgs]
        split
        · rw [(ih _ hsz.2).2.1 (i + 1) t _ (Nat.le_refl _), emit_vars,
            hE a st hsz.1]
        · rfl
    refine ⟨hE, hC, ?_⟩
    intro nm idx b st hidx
    simp only [genArrayIndexLoad]
    repeat' split
    all_goals first
      | (simp only [emitLoad_vars, emitLoadX_vars, emit_vars, emitMovImm_vars,
          hE idx st hidx])
      | rfl

theorem genExpr_vars (cfg : Config) (n : Node) (st : CState) :
    (genExpr cfg n st).vars = st.vars :=
  (expr_vars_master cfg (sizeOf n)).1 n st (Nat.le_refl _)

theorem genCallArgs_vars (cfg : Config) (i : Nat) (args : List Node)
    (st : CState) : (genCallArgs cfg i args st).vars = st.vars :=
  (expr_vars_master cfg (sizeOf args)).2.1 i args st (Nat.le_refl _)

theorem genArrayIndexLoad_vars (cfg : Config) (nm : String) (idx : Node)
    (b : Bool) (st : CState) :
    (genArrayIndexLoad cfg nm idx b st).vars = st.vars :=
  (expr_vars_master cfg (sizeOf idx)).2.2 nm idx b st (Nat.le_refl _)

/-- `_gen_float_expr` never touches `self.variables`. -/
theorem genFloatExpr_vars (cfg : Config) : ∀ (k : Nat) (n : Node)
    (st : CState), sizeOf n ≤ k → (genFloatExpr cfg n st).vars = st.vars := by
  intro k
  induction k using Nat.strong_induction_on with
  | _ k ih =>
    intro n st hn
    cases n <;> try (unfold genFloatExpr; rfl)
    case lit v =>
      cases v <;> simp only [genFloatExpr, emitMovImm_vars, emit_vars,
        emitAdrpAdd_vars, addDouble_vars]
    case varRef name =>
      simp only [genFloatExpr]
      split
      · rw [emitLoadD_vars]
      · split
        · rw [emit_vars, emitLoad_vars]
        · rfl
    case binaryOp l op r =>
      have hsz : sizeOf l < k ∧ sizeOf r < k := by
        have := hn; simp at this; omega
      have Hl : ∀ s, (genFloatExpr cfg l s).vars = s.vars :=
        fun s => ih _ hsz.1 l s (Nat.le_refl _)
      have Hr : ∀ s, (genFloatExpr cfg r s).vars = s.vars :=
        fun s => ih _ hsz.2 r s (Nat.le_refl _)
      simp only [genFloatExpr]
      repeat' split
      all_goals first
        | (simp only [emit_vars, Hl, Hr]; done)
        | rfl
    case unaryOp op operand =>
      have hsz : sizeOf operand < k := by
        have := hn; simp at this; omega
      have Ho : ∀ s, (genFloatExpr cfg operand s).vars = s.vars :=
        fun s => ih _ hsz operand s (Nat.le_refl _)
      simp only [genFloatExpr]
      split
      · rw [emit_vars, Ho]
      · rw [Ho]

/-- `_gen_print` never touches `self.variables`. -/
theorem genPrint_vars (cfg : Config) (n : Node) (st : CState) :
    (genPrint cfg n st).vars = st.vars := by
  cases n <;> try (rw [genPrint.eq_9] <;> try simp
                   done)
  case printStmt e =>
    have HE : ∀ (m : Node) s, (genExpr cfg m s).vars = s.vars :=
      fun m s => genExpr_vars cfg m s
    have HF : ∀ (m : Node) s, (genFloatExpr cfg m s).vars = s.vars :=
      fun m s => genFloatExpr_vars cfg (sizeOf m) m s (Nat.le_refl _)
    have HA : ∀ nm (m : Node) b s,
        (genArrayIndexLoad cfg nm m b s).vars = s.vars :=
      fun nm m b s => genArrayIndexLoad_vars cfg nm m b s
    cases e <;>
      try (rw [genPrint.eq_8] <;> try simp
           try (split <;> simp only [emitCallPrintFloat_vars,
             emitCallPrintInt_vars, HF, HE])
           done)
    case lit v =>
      cases v
      case str sv =>
        rw [genPrint.eq_1, emitWriteSyscall_vars, addString_vars]
      case float bits =>
        rw [genPrint.eq_2, emitCallPrintFloat_vars, HF]
      case int m =>
        rw [genPrint.eq_3, emitCallPrintInt_vars, HE] <;> simp
      case bool b =>
        rw [genPrint.eq_3, emitCallPrintInt_vars, HE] <;> simp
    case varRef name =>
      rw [genPrint.eq_4]
      repeat' split
      all_goals first
        | (simp only [emitPrintCstring_vars, emitLoadX_vars,
            emitWriteSyscall_vars, addString_vars, emitPrintFullArray_vars,
            printTupleBlock_vars, printDictBlock_vars,
            emitCallPrintInt_vars, emitCallPrintFloat_vars, HE, HF]; done)
        | rfl
    case indexAccess arr idx =>
      cases arr <;>
        try (rw [genPrint.eq_7, emitCallPrintInt_vars, HE] <;> try simp
             done)
      case varRef aname =>
        rw [genPrint.eq_5]
        repeat' split
        all_goals first
          | (simp only [emitPrintCstring_vars, emitPrintBool_vars,
              emitCallPrintInt_vars, emitCallPrintFloat_vars, emitLoadX_vars,
              emitLoad_vars, emitWriteSyscall_vars, addString_vars,
              emitPrintFullArray_vars, HE, HF, HA]; done)
          | rfl
          | ((try simp only [])
             repeat' split
             all_goals first
               | (simp only [emitPrintCstring_vars, emitPrintBool_vars,
                   emitCallPrintInt_vars, emitCallPrintFloat_vars,
                   emitLoadX_vars, emitLoad_vars, emitWriteSyscall_vars,
                   addString_vars, emitPrintFullArray_vars, HE, HF, HA]; done)
               | rfl)
      case indexAccess a2 i2 =>
        cases a2 <;>
          try (rw [genPrint.eq_7, emitCallPrintInt_vars, HE] <;> try simp
               done)
        case varRef oname =>
          rw [genPrint.eq_6]
          repeat' split
          all_goals first
            | (simp only [emitPrintCstring_vars, emitCallPrintInt_vars,
                HE, HA]; done)
            | rfl
            | ((try simp only [])
               repeat' split
               all_goals first
                 | (simp only [emitPrintCstring_vars, emitCallPrintInt_vars,
                     HE, HA]; done)
                 | rfl)

theorem genFloatExprVars (cfg : Config) (n : Node) (st : CState) :
    (genFloatExpr cfg n st).vars = st.vars :=
  genFloatExpr_vars cfg (sizeOf n) n st (Nat.le_refl _)

theorem enumVarTag_vars (name : String) (value : Node) (st : CState) :
    (enumVarTag name value st).vars = st.vars := by
  unfold enumVarTag
  cases value <;> try rfl
  case indexAccess arr idx =>
    cases arr <;> try rfl
    case varRef aname =>
      repeat' split
      all_goals first
        | (rw [markEnumVar_vars])
        | rfl

theorem genIfCond_vars (cfg : Config) (condition : Node) (lbl : String)
    (st : CState) : (genIfCond cfg condition lbl st).vars = st.vars := by
  have HF : ∀ (m : Node) s, (genFloatExpr cfg m s).vars = s.vars :=
    fun m s => genFloatExpr_vars cfg (sizeOf m) m s (Nat.le_refl _)
  cases condition <;>
    try (unfold genIfCond
         simp only [addBranch_vars, emit_vars, genExpr_vars]
         done)
  case binaryOp cl cop cr =>
    unfold genIfCond
    try simp only []
    repeat' split
    all_goals first
      | (simp only [condBranch_vars, emit_vars, genExpr_vars, HF]; done)
      | rfl

/-- The statement generators never rebind an existing variable to a
different frame offset, as long as the statement tree contains no
aggregate (array/tuple/dict literal) declaration: every existing
`variables` binding keeps its offset through `_gen_stmt` and through
statement lists. -/
theorem stmt_vars_master (cfg : Config) : ∀ k : Nat,
    (∀ (n : Node) (st : CState), sizeOf n ≤ k → noAggDecl n = true →
      ∀ (v : String) (o : Nat), dlookup v st.vars = some o →
        dlookup v (genStmt cfg n st).vars = some o) ∧
    (∀ (l : List Node) (st : CState), sizeOf l ≤ k → noAggDeclList l = true →
      ∀ (v : String) (o : Nat), dlookup v st.vars = some o →
        dlookup v (genStmts cfg l st).vars = some o) := by
  intro k
  induction k using Nat.strong_induction_on with
  | _ k ih =>
    constructor
    · intro n st hn hagg v o h
      cases n <;> try (unfold genStmt; exact h)
      case printStmt e =>
        rw [genStmt, genPrint_vars]
        exact h
      case returnStmt val =>
        simp only [genStmt, addBranch_vars, genExpr_vars]
        exact h
      case enumDef ename cs =>
        simp only [genStmt]
        rw [vars_foldl]
        · exact h
        · intro s a; rw [addString_vars]
      case varDecl name value =>
        rw [genStmt]
        cases value <;> try (simp [noAggDecl] at hagg)
        all_goals
          (unfold genVarDecl
           try simp only []
           split
           · simp only [emitStoreD_vars, markFloat_vars]
             refine bindVar_lookup name _ v o ?_
             rw [genFloatExprVars, enumVarTag_vars]
             exact h
           · simp only [emitStoreX_vars]
             refine bindVar_lookup name _ v o ?_
             rw [genExpr_vars, enumVarTag_vars]
             exact h)
      case loopStmt var start stop coll w body =>
        have hsz : sizeOf body < k := by
          have := hn; simp at this; omega
        have hb : noAggDeclList body = true := by
          simpa [noAggDecl] using hagg
        rw [genStmt]
        cases start <;> cases stop <;> try (unfold genLoop; exact h)
        case some.some startNode stopNode =>
          unfold genLoop
          try simp only []
          simp only [setLabel_vars, addBranch_vars, emitStore_vars,
            emit_vars, emitLoad_vars]
          refine (ih _ hsz).2 body _ (Nat.le_refl _) hb v o ?_
          simp only [addBranch_vars, emit_vars, emitLoad_vars, setLabel_vars,
            emitStore_vars, bumpStack_vars, genExpr_vars]
          refine bindVar_lookup var _ v o ?_
          rw [genExpr_vars]
          exact h
      case ifStmt cnd tb eb =>
        have hsz : sizeOf tb < k ∧ sizeOf eb < k := by
          have := hn; simp at this; omega
        have hb : noAggDeclList tb = true ∧ noAggDeclList eb = true := by
          have := hagg; simp [noAggDecl] at this; exact this
        rw [genStmt]
        unfold genIf
        try simp only []
        split
        · rw [setLabel_vars]
          refine (ih _ hsz.2).2 eb _ (Nat.le_refl _) hb.2 v o ?_
          rw [setLabel_vars, addBranch_vars]
          refine (ih _ hsz.1).2 tb _ (Nat.le_refl _) hb.1 v o ?_
          rw [genIfCond_vars]
          exact h
        · rw [setLabel_vars]
          refine (ih _ hsz.1).2 tb _ (Nat.le_refl _) hb.1 v o ?_
          rw [genIfCond_vars]
          exact h
    · intro l st hl hagg v o h
      cases l with
      | nil => unfold genStmts; exact h
      | cons s t =>
        have hsz : sizeOf s < k ∧ sizeOf t < k := by
          have := hl; simp at this; omega
        have hb : noAggDecl s = true ∧ noAggDeclList t = true := by
          have := hagg; simp [noAggDeclList] at this; exact this
        rw [genStmts]
        exact (ih _ hsz.2).2 t _ (Nat.le_refl _) hb.2 v o
          ((ih _ hsz.1).1 s st (Nat.le_refl _) hb.1 v o h)

/-- C8's original claim fails: an aggregate redeclaration rebinds.
Redeclaring `x` (previously bound to offset 0) as an array literal
rebinds it to the current stack offset 8 — the binding is not stable. -/
theorem c8_counterexample :
    dlookup "x" ({ vars := [("x", 0)], stack_offset := 8 } : CState).vars
      = some 0 ∧
    dlookup "x" ((genStmt arm64cfg (.varDecl "x" (.arrayLit []))
      { vars := [("x", 0)], stack_offset := 8 }).vars) = some 8 := by
  refine ⟨by decide, ?_⟩
  rw [genStmt]
  unfold genVarDecl
  simp only [enumVarTag]
  rw [genArrayDecl]
  simp only [genArrayDeclInts]
  decide

/-- C8 (amended): within one function's generation, once a variable
name is bound to a frame offset, every later statement that is not an
aggregate declaration (no `VarDecl` whose value is an array, tuple or
dictionary literal anywhere in it, including loop and if bodies) leaves
the binding at the same offset: scalar redeclarations reuse the
existing slot, loop variables reuse an existing binding, and generating
unrelated intervening code never moves it — so a later reference
resolves to the same offset.  Aggregate declarations (`_gen_array_decl`
and friends) rebind unconditionally, so they are excluded; see the
counterexample. -/
theorem c8_frame_slot_stable (cfg : Config) (v : String) (o : Nat) :
    (∀ (n : Node) (st : CState), noAggDecl n = true →
      dlookup v st.vars = some o →
      dlookup v (genStmt cfg n st).vars = some o) ∧
    (∀ (l : List Node) (st : CState), noAggDeclList l = true →
      dlookup v st.vars = some o →
      dlookup v (genStmts cfg l st).vars = some o) :=
  ⟨fun n st hagg h =>
    (stmt_vars_master cfg (sizeOf n)).1 n st (Nat.le_refl _) hagg v o h,
   fun l st hagg h =>
    (stmt_vars_master cfg (sizeOf l)).2 l st (Nat.le_refl _) hagg v o h⟩

theorem c8_witness :
    noAggDeclList [.varDecl "y" (.lit (.int 5)),
      .loopStmt "i" (some (.lit (.int 0))) (some (.lit (.int 3))) none none
        [.printStmt (.varRef "x")]] = true ∧
    dlookup "x" ({ vars := [("x", 16)], stack_offset := 24 } : CState).vars
      = some 16 ∧
    dlookup "x" ((genStmts arm64cfg [.varDecl "y" (.lit (.int 5)),
      .loopStmt "i" (some (.lit (.int 0))) (some (.lit (.int 3))) none none
        [.printStmt (.varRef "x")]]
      { vars := [("x", 16)], stack_offset := 24 }).vars) = some 16 := by
  have hagg : noAggDeclList [Node.varDecl "y" (.lit (.int 5)),
      .loopStmt "i" (some (.lit (.int 0))) (some (.lit (.int 3))) none none
        [.printStmt (.varRef "x")]] = true := by
    simp [noAggDeclList, noAggDecl]
  exact ⟨hagg, by decide,
    (c8_frame_slot_stable arm64cfg "x" 16).2 _ _ hagg (by decide)⟩

/-- Taking entirely inside the left chunk of an append. -/
theorem take_chunkL (A B : List Nat) (n : Nat) (h : n ≤ A.length) :
    (A ++ B).take n = A.take n := by
  induction A generalizing n with
  | nil => simp at h; simp [h]
  | cons a t ih =>
    cases n with
    | zero => simp
    | succ m =>
      simp only [List.cons_append, List.take_succ_cons, List.length_cons]
      rw [ih _ (by simpa using h)]

/-- C9: for every statement AST node of a kind the generator has no
case for (not a print statement, variable declaration, loop, if, return
or enum definition), `_gen_stmt` silently emits nothing: the entire
compiler state — code buffer, data buffer, label table, pending-branch
list and all other fields — is returned unchanged, and generation never
fails. -/
theorem c9_unsupported_stmt_noop (cfg : Config) (st : CState) (n : Node)
    (h : unsupportedStmt n = true) : genStmt cfg n st = st := by
  cases n <;> (try simp [unsupportedStmt] at h) <;> (unfold genStmt; rfl)

theorem c9_witness :
    unsupportedStmt (.funcCall "f" [.lit (.int 3)]) = true ∧
    genStmt arm64cfg (.funcCall "f" [.lit (.int 3)]) {} = {} :=
  ⟨by decide,
   c9_unsupported_stmt_noop arm64cfg {} (.funcCall "f" [.lit (.int 3)])
     (by decide)⟩

/-- C10: a variable-reference expression whose name is absent from the
variable table is not rejected: `_gen_expr` appends exactly the one
configured move-immediate word `mov_w0_0` to the code buffer (leaving
everything else unchanged), and simulating that move-wide instruction
(for the modelled configuration, MOVZ w0, #0) sets the register to 0
from any prior value. -/
theorem c10_undefined_varref (cfg : Config) (st : CState) (name : String)
    (r : Nat) (h : dmem name st.vars = false) :
    genExpr cfg (.varRef name) st =
      { st with code := st.code ++ pack32 cfg.mov_w0_0 } ∧
    runMov r [arm64cfg.mov_w0_0] = 0 := by
  constructor
  · rw [genExpr]
    rw [if_neg (by simp [h])]
    rfl
  · unfold runMov
    rw [List.foldl_cons, List.foldl_nil]
    rw [show arm64cfg.mov_w0_0 = 0x52800000 from rfl]
    unfold movStep
    norm_num

theorem c10_witness :
    dmem "x" ({} : CState).vars = false ∧
    (genExpr arm64cfg (.varRef "x") {} =
      { ({} : CState) with
          code := ({} : CState).code ++ pack32 arm64cfg.mov_w0_0 } ∧
     runMov 7 [arm64cfg.mov_w0_0] = 0) :=
  ⟨by decide, c10_undefined_varref arm64cfg {} "x" 7 (by decide)⟩

/-- C5: for every compiled program, the serialised container's bytes at
offsets 0, 4 and 12 are the little-endian configured magic, CPU type and
file type constants, and the 8 bytes at offset 540 — the LC_MAIN
entry-point command's 64-bit `entryoff` field — are the little-endian
encoding of the code-section file offset (one page) plus the recorded
main-function offset. -/
theorem c5_macho_header (cfg : Config) (code0 data0 : List Nat)
    (main_offset : Nat) :
    (writeMacho cfg code0 data0 main_offset).take 4 = pack32 cfg.magic ∧
    ((writeMacho cfg code0 data0 main_offset).drop 4).take 4 =
      pack32 cfg.cputype ∧
    ((writeMacho cfg code0 data0 main_offset).drop 12).take 4 =
      pack32 cfg.filetype ∧
    ((writeMacho cfg code0 data0 main_offset).drop 540).take 8 =
      pack64 (cfg.pageSize + main_offset) := by
  simp only [writeMacho]
  refine ⟨?_, ?_, ?_, ?_⟩ <;>
    simp [List.append_assoc, drop_chunkL, take_chunkL, pack32_length,
      pack64_length, padStr_length, pack32_take, pack64_take]

end JJ
